import Mathlib

/-!
Verification of the ack-ram-authenticator core against its specification.

The Go sources are shallowly embedded.  Strings are modelled as `List Char`,
where each character stands for one byte (all strings handled by the claims
are ASCII, for which Go's UTF-8 byte sequence coincides with the character
sequence; byte values produced by decoding are represented as characters with
the same code point).  Machine integers are `Nat` with explicit reduction
modulo 2^32 where overflow matters (SHA-1).
-/

set_option autoImplicit false
set_option maxRecDepth 8000

namespace AckRam

abbrev Str := List Char

/-- Byte sequence of a model string (ASCII modelling: one byte per char). -/
def bytesOf (s : Str) : List Nat := s.map Char.toNat

/-- Model string holding the given byte values. -/
def charsOf (l : List Nat) : Str := l.map Char.ofNat

/-- UTF-8 byte count of one character. -/
def charUtf8Len (c : Char) : Nat :=
  if c.toNat < 128 then 1 else if c.toNat < 2048 then 2
  else if c.toNat < 65536 then 3 else 4

/-- Go `len(s)` on a string counts UTF-8 bytes. -/
def goLen (s : Str) : Nat := (s.map charUtf8Len).sum

/-- Go `strings.ToLower`, restricted to its ASCII action. -/
def lowerChar (c : Char) : Char :=
  if 'A' ≤ c ∧ c ≤ 'Z' then Char.ofNat (c.toNat + 32) else c

def lowerStr (s : Str) : Str := s.map lowerChar

/-- Go `strings.TrimPrefix`. -/
def trimHead (p s : Str) : Str := if p.isPrefixOf s then s.drop p.length else s

/-- Split at the first occurrence of `sep`: returns the part before it and,
when the separator occurs, the part after it. -/
def splitFirst (sep : Char) : Str → Str × Option Str
  | [] => ([], none)
  | c :: rest =>
    if c = sep then ([], some rest)
    else
      let (before, after) := splitFirst sep rest
      (c :: before, after)

/-- Go `strings.Split(s, sep)` for a one-character separator. -/
def splitOnChar (sep : Char) (s : Str) : List Str :=
  s.foldr
    (fun c acc =>
      if c = sep then [] :: acc
      else
        match acc with
        | a :: t => (c :: a) :: t
        | [] => [[c]])
    [[]]

theorem splitOnChar_ne_nil (sep : Char) (s : Str) : splitOnChar sep s ≠ [] := by
  induction s with
  | nil => simp [splitOnChar]
  | cons c rest ih =>
    simp only [splitOnChar, List.foldr] at *
    by_cases h : c = sep
    · simp [h]
    · simp only [h, if_neg, if_false]
      cases hh : List.foldr _ [[]] rest with
      | nil => exact absurd hh ih
      | cons a t => simp

@[simp] theorem splitOnChar_nil (sep : Char) : splitOnChar sep [] = [[]] := rfl

theorem splitOnChar_cons (sep c : Char) (s : Str) :
    splitOnChar sep (c :: s) =
      (if c = sep then [] :: splitOnChar sep s
       else (c :: (splitOnChar sep s).headD []) :: (splitOnChar sep s).tail) := by
  simp only [splitOnChar, List.foldr]
  by_cases h : c = sep
  · simp [h]
  · simp only [h, if_false]
    cases hh : List.foldr _ [[]] s with
    | nil =>
      exact absurd hh (splitOnChar_ne_nil sep s)
    | cons a t => simp

/-! ## Standard base64 (Go `encoding/base64`, `StdEncoding`) -/

def b64Alphabet : Str :=
  ("ABCDEFGHIJKLMNOPQRSTUVWXYZabcdefghijklmnopqrstuvwxyz0123456789+/").data

def b64Char (n : Nat) : Char := b64Alphabet.getD n 'A'

/-- Standard base64 encoding of a byte list, with `=` padding
(Go `base64.StdEncoding.EncodeToString`). -/
def b64EncodeBytes : List Nat → Str
  | b1 :: b2 :: b3 :: rest =>
    b64Char (b1 / 4) :: b64Char ((b1 % 4) * 16 + b2 / 16) ::
    b64Char ((b2 % 16) * 4 + b3 / 64) :: b64Char (b3 % 64) :: b64EncodeBytes rest
  | [b1, b2] =>
    [b64Char (b1 / 4), b64Char ((b1 % 4) * 16 + b2 / 16), b64Char ((b2 % 16) * 4), '=']
  | [b1] => [b64Char (b1 / 4), b64Char ((b1 % 4) * 16), '=', '=']
  | [] => []

/-- Value of a base64 alphabet character (Go decode map). -/
def b64Val (c : Char) : Option Nat :=
  if 'A' ≤ c ∧ c ≤ 'Z' then some (c.toNat - 65)
  else if 'a' ≤ c ∧ c ≤ 'z' then some (c.toNat - 97 + 26)
  else if '0' ≤ c ∧ c ≤ '9' then some (c.toNat - 48 + 52)
  else if c = '+' then some 62
  else if c = '/' then some 63
  else none

/-- Decode base64 four characters at a time; `=` padding is accepted only in
the final quantum (Go default decoder; trailing bits are not checked). -/
def b64DecodeQuanta : Str → Option (List Nat)
  | [] => some []
  | c1 :: c2 :: c3 :: c4 :: rest => do
    let i1 ← b64Val c1
    let i2 ← b64Val c2
    if c3 = '=' then
      if c4 = '=' ∧ rest = [] then some [i1 * 4 + i2 / 16] else none
    else do
      let i3 ← b64Val c3
      if c4 = '=' then
        if rest = [] then some [i1 * 4 + i2 / 16, (i2 % 16) * 16 + i3 / 4] else none
      else do
        let i4 ← b64Val c4
        let tail ← b64DecodeQuanta rest
        some ((i1 * 4 + i2 / 16) :: ((i2 % 16) * 16 + i3 / 4) :: ((i3 % 4) * 64 + i4) :: tail)
  | _ => none

/-- Go `base64.StdEncoding.DecodeString`: carriage returns and newlines are
ignored, everything else must be well-formed quanta. -/
def b64Decode (s : Str) : Option (List Nat) :=
  b64DecodeQuanta (s.filter (fun c => ¬(c = '\r' ∨ c = '\n')))

theorem b64Char_mem (n : Nat) : b64Char n ∈ b64Alphabet := by
  by_cases hn : n < b64Alphabet.length
  · rw [show b64Char n = b64Alphabet.getD n 'A' from rfl, List.getD_eq_getElem _ _ hn]
    exact List.getElem_mem hn
  · rw [show b64Char n = b64Alphabet.getD n 'A' from rfl,
      List.getD_eq_default _ _ (Nat.le_of_not_lt hn)]
    decide

theorem b64Val_b64Char {i : Nat} (h : i < 64) : b64Val (b64Char i) = some i := by
  interval_cases i <;> decide

theorem b64Char_not_crlf (n : Nat) : ¬(b64Char n = '\r' ∨ b64Char n = '\n') := by
  have h : ∀ c ∈ b64Alphabet, ¬(c = '\r' ∨ c = '\n') := by decide
  exact h _ (b64Char_mem n)

theorem b64Char_ne_eq (n : Nat) : b64Char n ≠ '=' := by
  have h : ∀ c ∈ b64Alphabet, c ≠ '=' := by decide
  exact h _ (b64Char_mem n)

theorem b64Encode_no_crlf (l : List Nat) :
    ∀ c ∈ b64EncodeBytes l, ¬(c = '\r' ∨ c = '\n') := by
  induction l using b64EncodeBytes.induct with
  | case1 b1 b2 b3 rest ih =>
    intro c hc
    rw [b64EncodeBytes] at hc
    simp only [List.mem_cons] at hc
    rcases hc with h | h | h | h | h
    · subst h; exact b64Char_not_crlf _
    · subst h; exact b64Char_not_crlf _
    · subst h; exact b64Char_not_crlf _
    · subst h; exact b64Char_not_crlf _
    · exact ih c h
  | case2 b1 b2 =>
    intro c hc
    rw [b64EncodeBytes] at hc
    simp only [List.mem_cons, List.not_mem_nil, or_false] at hc
    rcases hc with h | h | h | h <;> subst h
    · exact b64Char_not_crlf _
    · exact b64Char_not_crlf _
    · exact b64Char_not_crlf _
    · decide
  | case3 b1 =>
    intro c hc
    rw [b64EncodeBytes] at hc
    simp only [List.mem_cons, List.not_mem_nil, or_false] at hc
    rcases hc with h | h | h | h <;> subst h
    · exact b64Char_not_crlf _
    · exact b64Char_not_crlf _
    · decide
    · decide
  | case4 => intro c hc; rw [b64EncodeBytes] at hc; simp at hc

theorem b64DecodeQuanta_encode (l : List Nat) (h : ∀ b ∈ l, b < 256) :
    b64DecodeQuanta (b64EncodeBytes l) = some l := by
  induction l using b64EncodeBytes.induct with
  | case1 b1 b2 b3 rest ih =>
    have hb1 : b1 < 256 := h b1 (by simp)
    have hb2 : b2 < 256 := h b2 (by simp)
    have hb3 : b3 < 256 := h b3 (by simp)
    have hrest : ∀ b ∈ rest, b < 256 := fun b hb => h b (by simp [hb])
    have h1 : b1 / 4 < 64 := by omega
    have h2 : (b1 % 4) * 16 + b2 / 16 < 64 := by omega
    have h3 : (b2 % 16) * 4 + b3 / 64 < 64 := by omega
    have h4 : b3 % 64 < 64 := by omega
    rw [b64EncodeBytes, b64DecodeQuanta]
    simp only [b64Val_b64Char h1, b64Val_b64Char h2, b64Val_b64Char h3,
      b64Val_b64Char h4, if_neg (b64Char_ne_eq _), if_neg (b64Char_ne_eq _),
      Option.bind_eq_bind, Option.some_bind, ih hrest]
    have e1 : b1 / 4 * 4 + ((b1 % 4) * 16 + b2 / 16) / 16 = b1 := by omega
    have e2 : ((b1 % 4) * 16 + b2 / 16) % 16 * 16 + ((b2 % 16) * 4 + b3 / 64) / 4 = b2 := by
      omega
    have e3 : ((b2 % 16) * 4 + b3 / 64) % 4 * 64 + b3 % 64 = b3 := by omega
    rw [e1, e2, e3]
  | case2 b1 b2 =>
    have hb1 : b1 < 256 := h b1 (by simp)
    have hb2 : b2 < 256 := h b2 (by simp)
    have h1 : b1 / 4 < 64 := by omega
    have h2 : (b1 % 4) * 16 + b2 / 16 < 64 := by omega
    have h3 : (b2 % 16) * 4 < 64 := by omega
    rw [b64EncodeBytes, b64DecodeQuanta]
    simp only [b64Val_b64Char h1, b64Val_b64Char h2, b64Val_b64Char h3,
      if_neg (b64Char_ne_eq _), Option.bind_eq_bind, Option.some_bind, if_pos rfl, if_true]
    have e1 : b1 / 4 * 4 + ((b1 % 4) * 16 + b2 / 16) / 16 = b1 := by omega
    have e2 : ((b1 % 4) * 16 + b2 / 16) % 16 * 16 + (b2 % 16) * 4 / 4 = b2 := by omega
    rw [e1, e2]
  | case3 b1 =>
    have hb1 : b1 < 256 := h b1 (by simp)
    have h1 : b1 / 4 < 64 := by omega
    have h2 : (b1 % 4) * 16 < 64 := by omega
    rw [b64EncodeBytes, b64DecodeQuanta]
    simp only [b64Val_b64Char h1, b64Val_b64Char h2,
      Option.bind_eq_bind, Option.some_bind, if_pos rfl, if_true]
    have e1 : b1 / 4 * 4 + (b1 % 4) * 16 / 16 = b1 := by omega
    simp only [and_self, if_true, e1]
  | case4 => rfl

/-- Base64 decode is a left inverse of encode on byte lists. -/
theorem b64_roundtrip (l : List Nat) (h : ∀ b ∈ l, b < 256) :
    b64Decode (b64EncodeBytes l) = some l := by
  unfold b64Decode
  rw [List.filter_eq_self.mpr, b64DecodeQuanta_encode l h]
  intro c hc
  simpa using b64Encode_no_crlf l c hc

theorem b64Encode_length (l : List Nat) :
    (b64EncodeBytes l).length = 4 * ((l.length + 2) / 3) := by
  induction l using b64EncodeBytes.induct with
  | case1 b1 b2 b3 rest ih => rw [b64EncodeBytes]; simp only [List.length_cons, ih]; omega
  | case2 b1 b2 => rw [b64EncodeBytes]; simp
  | case3 b1 => rw [b64EncodeBytes]; simp
  | case4 => rfl

theorem b64Encode_ascii (l : List Nat) : ∀ c ∈ b64EncodeBytes l, c.toNat < 128 := by
  have hchar : ∀ n, (b64Char n).toNat < 128 := by
    have halpha : ∀ c ∈ b64Alphabet, c.toNat < 128 := by decide
    exact fun n => halpha _ (b64Char_mem n)
  induction l using b64EncodeBytes.induct with
  | case1 b1 b2 b3 rest ih =>
    intro c hc
    rw [b64EncodeBytes] at hc
    simp only [List.mem_cons] at hc
    rcases hc with h | h | h | h | h
    · subst h; exact hchar _
    · subst h; exact hchar _
    · subst h; exact hchar _
    · subst h; exact hchar _
    · exact ih c h
  | case2 b1 b2 =>
    intro c hc
    rw [b64EncodeBytes] at hc
    simp only [List.mem_cons, List.not_mem_nil, or_false] at hc
    rcases hc with h | h | h | h <;> subst h
    · exact hchar _
    · exact hchar _
    · exact hchar _
    · decide
  | case3 b1 =>
    intro c hc
    rw [b64EncodeBytes] at hc
    simp only [List.mem_cons, List.not_mem_nil, or_false] at hc
    rcases hc with h | h | h | h <;> subst h
    · exact hchar _
    · exact hchar _
    · decide
    · decide
  | case4 => intro c hc; rw [b64EncodeBytes] at hc; simp at hc

/-! ## Go `net/url` escaping (`QueryEscape` / `QueryUnescape`) -/

/-- Characters Go leaves unescaped in query components
(`shouldEscape`, `encodeQueryComponent`): alphanumerics and `-_.~`. -/
def isUnreserved (c : Char) : Bool :=
  (65 ≤ c.toNat ∧ c.toNat ≤ 90) ∨ (97 ≤ c.toNat ∧ c.toNat ≤ 122) ∨
  (48 ≤ c.toNat ∧ c.toNat ≤ 57) ∨ c = '-' ∨ c = '_' ∨ c = '.' ∨ c = '~'

def hexUpper (n : Nat) : Char := ("0123456789ABCDEF").data.getD n '0'

/-- Go `url.QueryEscape` acting on one byte. -/
def queryEscapeChar (c : Char) : Str :=
  if isUnreserved c then [c]
  else if c = ' ' then ['+']
  else ['%', hexUpper (c.toNat / 16), hexUpper (c.toNat % 16)]

/-- Go `url.QueryEscape` (bytes modelled as characters). -/
def queryEscape (s : Str) : Str := (s.map queryEscapeChar).flatten

def hexVal (c : Char) : Option Nat :=
  if 48 ≤ c.toNat ∧ c.toNat ≤ 57 then some (c.toNat - 48)
  else if 97 ≤ c.toNat ∧ c.toNat ≤ 102 then some (c.toNat - 97 + 10)
  else if 65 ≤ c.toNat ∧ c.toNat ≤ 70 then some (c.toNat - 65 + 10)
  else none

/-- Go `url.QueryUnescape`: `%XX` decodes to the byte `XX`, `+` becomes a
space, an incomplete or invalid escape is an error. -/
def queryUnescape : Str → Option Str
  | [] => some []
  | c :: rest =>
    if c = '%' then
      match rest with
      | c1 :: c2 :: rest' => do
        let h ← hexVal c1
        let l ← hexVal c2
        let t ← queryUnescape rest'
        some (Char.ofNat (h * 16 + l) :: t)
      | _ => none
    else if c = '+' then (queryUnescape rest).map (fun t => ' ' :: t)
    else (queryUnescape rest).map (fun t => c :: t)

theorem hexVal_hexUpper {n : Nat} (h : n < 16) : hexVal (hexUpper n) = some n := by
  interval_cases n <;> decide

theorem isUnreserved_spec {c : Char} (h : isUnreserved c = true) :
    c ≠ '%' ∧ c ≠ '+' ∧ c ≠ '&' ∧ c ≠ ';' ∧ c ≠ '=' ∧ c ≠ '#' ∧ c ≠ '?' ∧
      c ≠ ' ' ∧ c.toNat < 128 := by
  simp only [isUnreserved, decide_eq_true_eq, Bool.or_eq_true, decide_eq_true_eq] at h
  have htn : c.toNat < 128 ∧ c.toNat ≠ 37 ∧ c.toNat ≠ 43 ∧ c.toNat ≠ 38 ∧ c.toNat ≠ 59 ∧
      c.toNat ≠ 61 ∧ c.toNat ≠ 35 ∧ c.toNat ≠ 63 ∧ c.toNat ≠ 32 := by
    rcases h with h | h | h | h | h | h | h
    · omega
    · omega
    · omega
    · subst h; decide
    · subst h; decide
    · subst h; decide
    · subst h; decide
  obtain ⟨h0, h37, h43, h38, h59, h61, h35, h63, h32⟩ := htn
  refine ⟨?_, ?_, ?_, ?_, ?_, ?_, ?_, ?_, h0⟩ <;>
    (intro he; subst he; simp_all)

theorem queryUnescape_escapeChar {c : Char} (hc : c.toNat < 256) (rest : Str) :
    queryUnescape (queryEscapeChar c ++ rest) = (queryUnescape rest).map (fun t => c :: t) := by
  by_cases hu : isUnreserved c
  · obtain ⟨h1, h2, _⟩ := isUnreserved_spec hu
    rw [show queryEscapeChar c ++ rest = c :: rest by rw [queryEscapeChar, if_pos hu]; rfl,
      queryUnescape.eq_def]
    simp only [if_neg h1, if_neg h2]
  · by_cases hsp : c = ' '
    · subst hsp
      rw [show queryEscapeChar ' ' ++ rest = '+' :: rest by rfl, queryUnescape.eq_def]
      simp
    · rw [show queryEscapeChar c ++ rest =
          '%' :: hexUpper (c.toNat / 16) :: hexUpper (c.toNat % 16) :: rest by
            rw [queryEscapeChar, if_neg hu, if_neg hsp]; rfl,
        queryUnescape.eq_def]
      simp only [if_pos rfl]
      have hh : c.toNat / 16 < 16 := by omega
      have hl : c.toNat % 16 < 16 := by omega
      rw [hexVal_hexUpper hh, hexVal_hexUpper hl]
      simp only [Option.bind_eq_bind, Option.some_bind]
      have he : c.toNat / 16 * 16 + c.toNat % 16 = c.toNat := by omega
      rw [he]
      have hcc : Char.ofNat c.toNat = c := Char.ofNat_toNat c
      rw [hcc]
      cases queryUnescape rest <;> rfl

/-- Unescaping inverts escaping on byte strings. -/
theorem queryUnescape_queryEscape (s : Str) (h : ∀ c ∈ s, c.toNat < 256) :
    queryUnescape (queryEscape s) = some s := by
  induction s with
  | nil => rfl
  | cons c rest ih =>
    have hc : c.toNat < 256 := h c (by simp)
    have hrest : ∀ x ∈ rest, x.toNat < 256 := fun x hx => h x (by simp [hx])
    show queryUnescape (queryEscapeChar c ++ queryEscape rest) = some (c :: rest)
    rw [queryUnescape_escapeChar hc, ih hrest]
    rfl

/-- Characters that can appear in `QueryEscape` output. -/
def escOut (c : Char) : Prop := isUnreserved c = true ∨ c = '+' ∨ c = '%' ∨
  (48 ≤ c.toNat ∧ c.toNat ≤ 57) ∨ (65 ≤ c.toNat ∧ c.toNat ≤ 70)

theorem hexUpper_range (n : Nat) :
    (48 ≤ (hexUpper n).toNat ∧ (hexUpper n).toNat ≤ 57) ∨
      (65 ≤ (hexUpper n).toNat ∧ (hexUpper n).toNat ≤ 70) := by
  have hmem : hexUpper n ∈ ("0123456789ABCDEF").data := by
    by_cases hn : n < (("0123456789ABCDEF").data).length
    · rw [show hexUpper n = (("0123456789ABCDEF").data).getD n '0' from rfl,
        List.getD_eq_getElem _ _ hn]
      exact List.getElem_mem hn
    · rw [show hexUpper n = (("0123456789ABCDEF").data).getD n '0' from rfl,
        List.getD_eq_default _ _ (Nat.le_of_not_lt hn)]
      decide
  have : ∀ c ∈ ("0123456789ABCDEF").data,
      (48 ≤ c.toNat ∧ c.toNat ≤ 57) ∨ (65 ≤ c.toNat ∧ c.toNat ≤ 70) := by decide
  exact this _ hmem

theorem queryEscape_chars (s : Str) : ∀ c ∈ queryEscape s, escOut c := by
  induction s with
  | nil => intro c hc; simp [queryEscape] at hc
  | cons x rest ih =>
    intro c hc
    have : queryEscape (x :: rest) = queryEscapeChar x ++ queryEscape rest := rfl
    rw [this, List.mem_append] at hc
    rcases hc with hc | hc
    · unfold queryEscapeChar at hc
      by_cases hu : isUnreserved x
      · rw [if_pos hu] at hc
        simp only [List.mem_singleton] at hc
        subst hc
        exact Or.inl hu
      · rw [if_neg hu] at hc
        by_cases hsp : x = ' '
        · rw [if_pos hsp] at hc
          simp only [List.mem_singleton] at hc
          subst hc
          exact Or.inr (Or.inl rfl)
        · rw [if_neg hsp] at hc
          simp only [List.mem_cons, List.not_mem_nil, or_false] at hc
          rcases hc with hc | hc | hc
          · subst hc; exact Or.inr (Or.inr (Or.inl rfl))
          · subst hc; exact Or.inr (Or.inr (Or.inr (hexUpper_range _)))
          · subst hc; exact Or.inr (Or.inr (Or.inr (hexUpper_range _)))
    · exact ih c hc

theorem escOut_not_special {c : Char} (h : escOut c) :
    c ≠ '&' ∧ c ≠ ';' ∧ c ≠ '#' ∧ c ≠ '?' ∧ c.toNat < 128 := by
  rcases h with h | h | h | h | h
  · obtain ⟨_, _, h3, h4, _, h6, h7, _, h9⟩ := isUnreserved_spec h
    exact ⟨h3, h4, h6, h7, h9⟩
  · subst h; refine ⟨by decide, by decide, by decide, by decide, by decide⟩
  · subst h; refine ⟨by decide, by decide, by decide, by decide, by decide⟩
  · have h38 : c.toNat ≠ 38 := by omega
    have h59 : c.toNat ≠ 59 := by omega
    have h35 : c.toNat ≠ 35 := by omega
    have h63 : c.toNat ≠ 63 := by omega
    refine ⟨?_, ?_, ?_, ?_, by omega⟩ <;> (intro he; subst he; simp_all)
  · have h38 : c.toNat ≠ 38 := by omega
    have h59 : c.toNat ≠ 59 := by omega
    have h35 : c.toNat ≠ 35 := by omega
    have h63 : c.toNat ≠ 63 := by omega
    refine ⟨?_, ?_, ?_, ?_, by omega⟩ <;> (intro he; subst he; simp_all)

/-! ## Go `net/url` query parsing (`ParseQuery`, go1.16: `&` and `;` separate) -/

def isSep (c : Char) : Bool := c = '&' ∨ c = ';'

/-- Split a string at every separator character selected by `p`. -/
def splitPred (p : Char → Bool) (s : Str) : List Str :=
  s.foldr
    (fun c acc =>
      if p c then [] :: acc
      else
        match acc with
        | a :: t => (c :: a) :: t
        | [] => [[c]])
    [[]]

theorem splitPred_ne_nil (p : Char → Bool) (s : Str) : splitPred p s ≠ [] := by
  induction s with
  | nil => simp [splitPred]
  | cons c rest ih =>
    simp only [splitPred, List.foldr] at *
    by_cases h : p c
    · simp [h]
    · simp only [h, if_false]
      cases hh : List.foldr _ [[]] rest with
      | nil => exact absurd hh ih
      | cons a t => simp

@[simp] theorem splitPred_nil (p : Char → Bool) : splitPred p [] = [[]] := rfl

theorem splitPred_cons (p : Char → Bool) (c : Char) (s : Str) :
    splitPred p (c :: s) =
      (if p c then [] :: splitPred p s
       else (c :: (splitPred p s).headD []) :: (splitPred p s).tail) := by
  simp only [splitPred, List.foldr]
  by_cases h : p c
  · simp [h]
  · simp only [h, if_false]
    cases hh : List.foldr _ [[]] s with
    | nil => exact absurd hh (splitPred_ne_nil p s)
    | cons a t => simp

theorem splitPred_no_sep (p : Char → Bool) (s : Str) (h : ∀ c ∈ s, ¬p c) :
    splitPred p s = [s] := by
  induction s with
  | nil => rfl
  | cons c rest ih =>
    rw [splitPred_cons, if_neg (h c (by simp)),
      ih (fun x hx => h x (by simp [hx]))]
    rfl

theorem splitPred_append_sep (p : Char → Bool) (x y : Str) (c0 : Char)
    (hx : ∀ c ∈ x, ¬p c) (hc : p c0) :
    splitPred p (x ++ c0 :: y) = x :: splitPred p y := by
  induction x with
  | nil => simp only [List.nil_append, splitPred_cons, if_pos hc]
  | cons c rest ih =>
    rw [List.cons_append, splitPred_cons, if_neg (hx c (by simp)),
      ih (fun d hd => hx d (by simp [hd]))]
    rfl

theorem splitFirst_no_sep (sep : Char) (s : Str) (h : ∀ c ∈ s, c ≠ sep) :
    splitFirst sep s = (s, none) := by
  induction s with
  | nil => rfl
  | cons c rest ih =>
    rw [splitFirst, if_neg (h c (by simp)), ih (fun x hx => h x (by simp [hx]))]

theorem splitFirst_append (sep : Char) (x y : Str) (h : ∀ c ∈ x, c ≠ sep) :
    splitFirst sep (x ++ sep :: y) = (x, some y) := by
  induction x with
  | nil => simp [splitFirst]
  | cons c rest ih =>
    rw [List.cons_append, splitFirst, if_neg (h c (by simp)),
      ih (fun d hd => h d (by simp [hd]))]

/-- Go `url.Values`: map from key to list of values.  Modelled as an
association list in first-appearance order (Go map iteration order is
unspecified; the claims do not depend on it). -/
abbrev Values := List (Str × List Str)

/-- `Values.Add`: append a value to the key entry. -/
def valuesAdd (k v : Str) : Values → Values
  | [] => [(k, [v])]
  | (k2, vs) :: rest =>
    if k2 = k then (k2, vs ++ [v]) :: rest else (k2, vs) :: valuesAdd k v rest

/-- `Values.Set`: replace the key entry with a single value. -/
def valuesSet (k v : Str) : Values → Values
  | [] => [(k, [v])]
  | (k2, vs) :: rest =>
    if k2 = k then (k, [v]) :: rest else (k2, vs) :: valuesSet k v rest

/-- `Values.Get`: first value of the key, or empty. -/
def valuesGet (k : Str) : Values → Str
  | [] => []
  | (k2, vs) :: rest => if k2 = k then vs.headD [] else valuesGet k rest

theorem valuesAdd_not_mem (k v : Str) (m : Values) (h : ∀ e ∈ m, e.1 ≠ k) :
    valuesAdd k v m = m ++ [(k, [v])] := by
  induction m with
  | nil => rfl
  | cons e rest ih =>
    obtain ⟨k2, vs⟩ := e
    rw [valuesAdd, if_neg (h (k2, vs) (by simp)), ih (fun d hd => h d (by simp [hd]))]
    rfl

/-- Splitting `key=value`: Go cuts at the first `=`; a missing `=` leaves an
empty value. -/
def cutEq (seg : Str) : Str × Str :=
  match splitFirst '=' seg with
  | (k, some v) => (k, v)
  | (k, none) => (k, [])

/-- One iteration of Go 1.16 `parseQuery`: empty segments are skipped, the
segment is cut at the first `=`, both halves are query-unescaped, a failing
unescape drops the pair and records an error. -/
def applySeg (acc : Values × Bool) (seg : Str) : Values × Bool :=
  if seg = [] then acc
  else
    match queryUnescape (cutEq seg).1, queryUnescape (cutEq seg).2 with
    | some k, some v => (valuesAdd k v acc.1, acc.2)
    | _, _ => (acc.1, true)

/-- Go `url.ParseQuery` (returns the values and whether an error occurred). -/
def parseQueryGo (s : Str) : Values × Bool :=
  (splitPred isSep s).foldl applySeg ([], false)

/-- Serialisation of key/value pairs in the shape the generator emits:
`k1=v1&k2=v2&...`. -/
def joinPairsRaw : List (Str × Str) → Str
  | [] => []
  | [(k, v)] => k ++ '=' :: v
  | (k, v) :: rest => k ++ '=' :: v ++ '&' :: joinPairsRaw rest

/-- Keys that survive query parsing verbatim: nonempty, no separators, no
`=`, no escape-active characters. -/
def goodKey (k : Str) : Prop :=
  k ≠ [] ∧ ∀ c ∈ k, ¬isSep c ∧ c ≠ '=' ∧ c ≠ '%' ∧ c ≠ '+'

/-- Values that parse back: no separators and unescapable. -/
def goodVal (v : Str) : Prop :=
  (∀ c ∈ v, ¬isSep c) ∧ (queryUnescape v).isSome

instance goodKey.dec (k : Str) : Decidable (goodKey k) :=
  inferInstanceAs
    (Decidable (k ≠ [] ∧ ∀ c ∈ k, ¬isSep c = true ∧ c ≠ '=' ∧ c ≠ '%' ∧ c ≠ '+'))

instance goodVal.dec (v : Str) : Decidable (goodVal v) :=
  inferInstanceAs (Decidable ((∀ c ∈ v, ¬isSep c = true) ∧ (queryUnescape v).isSome = true))

theorem queryUnescape_id (s : Str) (h : ∀ c ∈ s, c ≠ '%' ∧ c ≠ '+') :
    queryUnescape s = some s := by
  induction s with
  | nil => rfl
  | cons c rest ih =>
    rw [queryUnescape.eq_def]
    simp only [if_neg (h c (by simp)).1, if_neg (h c (by simp)).2,
      ih (fun x hx => h x (by simp [hx]))]
    rfl

theorem applySeg_pair (m : Values) (e : Bool) (k v : Str)
    (hk : goodKey k) (hv : (queryUnescape v).isSome) :
    applySeg (m, e) (k ++ '=' :: v) =
      (valuesAdd k ((queryUnescape v).getD []) m, e) := by
  obtain ⟨hk0, hkc⟩ := hk
  have hne : k ++ '=' :: v ≠ [] := by simp
  have hcut : cutEq (k ++ '=' :: v) = (k, v) := by
    unfold cutEq
    rw [splitFirst_append '=' k v (fun c hc => (hkc c hc).2.1)]
  rw [applySeg, if_neg hne, hcut]
  have hukey : queryUnescape k = some k :=
    queryUnescape_id k (fun c hc => ⟨(hkc c hc).2.2.1, (hkc c hc).2.2.2⟩)
  obtain ⟨v2, hv2⟩ := Option.isSome_iff_exists.mp hv
  simp [hukey, hv2]

theorem joinPairs_cons (k v : Str) (rest : List (Str × Str)) (h : rest ≠ []) :
    joinPairsRaw ((k, v) :: rest) = k ++ '=' :: v ++ '&' :: joinPairsRaw rest := by
  cases rest with
  | nil => exact absurd rfl h
  | cons p t => rfl

theorem splitPred_joinPairs (pairs : List (Str × Str)) (h0 : pairs ≠ [])
    (hk : ∀ p ∈ pairs, goodKey p.1) (hv : ∀ p ∈ pairs, goodVal p.2) :
    splitPred isSep (joinPairsRaw pairs) =
      pairs.map (fun p => p.1 ++ '=' :: p.2) := by
  induction pairs with
  | nil => exact absurd rfl h0
  | cons p rest ih =>
    obtain ⟨k, v⟩ := p
    have hseg : ∀ c ∈ k ++ '=' :: v, ¬isSep c = true := by
      intro c hc
      rw [List.mem_append] at hc
      rcases hc with hc | hc
      · exact (hk (k, v) (by simp) |>.2 c hc).1
      · simp only [List.mem_cons] at hc
        rcases hc with hc | hc
        · subst hc; decide
        · exact (hv (k, v) (by simp)).1 c hc
    cases rest with
    | nil =>
      show splitPred isSep (k ++ '=' :: v) = [k ++ '=' :: v]
      exact splitPred_no_sep _ _ hseg
    | cons q t =>
      rw [joinPairs_cons k v (q :: t) (by simp),
        show k ++ '=' :: v ++ '&' :: joinPairsRaw (q :: t)
          = (k ++ '=' :: v) ++ '&' :: joinPairsRaw (q :: t) by simp,
        splitPred_append_sep isSep (k ++ '=' :: v) _ '&' hseg (by decide),
        ih (by simp) (fun d hd => hk d (by simp [hd])) (fun d hd => hv d (by simp [hd]))]
      rfl

/-- Parsing the serialisation of well-behaved pairs recovers exactly the
pairs (values unescaped), with no error. -/
theorem parseQuery_joinPairs (pairs : List (Str × Str))
    (hk : ∀ p ∈ pairs, goodKey p.1) (hv : ∀ p ∈ pairs, goodVal p.2) :
    parseQueryGo (joinPairsRaw pairs) =
      (pairs.foldl (fun m p => valuesAdd p.1 ((queryUnescape p.2).getD []) m) [], false) := by
  cases h0 : pairs with
  | nil => rfl
  | cons p rest =>
    rw [← h0]
    unfold parseQueryGo
    rw [splitPred_joinPairs pairs (by rw [h0]; simp) hk hv]
    subst h0
    generalize hacc : (([], false) : Values × Bool) = acc
    have hgen : ∀ (l : List (Str × Str)) (m : Values) (e : Bool),
        (∀ p ∈ l, goodKey p.1) → (∀ p ∈ l, goodVal p.2) →
        (l.map (fun p => p.1 ++ '=' :: p.2)).foldl applySeg (m, e) =
          (l.foldl (fun m2 p => valuesAdd p.1 ((queryUnescape p.2).getD []) m2) m, e) := by
      intro l
      induction l with
      | nil => intro m e _ _; rfl
      | cons q t ih =>
        intro m e hk2 hv2
        rw [List.map_cons, List.foldl_cons, List.foldl_cons,
          applySeg_pair m e q.1 q.2 (hk2 q (by simp)) (hv2 q (by simp)).2]
        exact ih _ e (fun d hd => hk2 d (by simp [hd])) (fun d hd => hv2 d (by simp [hd]))
    rw [← hacc]
    exact hgen _ [] false hk hv

theorem foldAdd_eq_map (f : Str × Str → Str) (pairs : List (Str × Str)) (m : Values)
    (hnd : (pairs.map Prod.fst).Nodup) (hdis : ∀ e ∈ m, ∀ p ∈ pairs, e.1 ≠ p.1) :
    pairs.foldl (fun m2 p => valuesAdd p.1 (f p) m2) m =
      m ++ pairs.map (fun p => (p.1, [f p])) := by
  induction pairs generalizing m with
  | nil => simp
  | cons p rest ih =>
    rw [List.foldl_cons,
      valuesAdd_not_mem p.1 (f p) m (fun e he => hdis e he p (by simp)),
      ih (m ++ [(p.1, [f p])])]
    · simp
    · simp only [List.map_cons, List.nodup_cons] at hnd
      exact hnd.2
    · intro e he q hq
      rw [List.mem_append] at he
      rcases he with he | he
      · exact hdis e he q (by simp [hq])
      · simp only [List.mem_singleton] at he
        subst he
        simp only [List.map_cons, List.nodup_cons] at hnd
        intro hpq
        exact hnd.1 (hpq ▸ List.mem_map_of_mem Prod.fst hq)

/-! ## Go `net/url.Parse`, scoped to the behaviour the verifier exercises.

The model covers scheme extraction, the authority/host split, the query
split, the path, and control-character rejection.  Percent-escapes in
host, path, userinfo or fragment are not modelled (the model returns
`none` there, standing for a parse error); the URLs produced by the
generator and handled by the claims contain none. -/

structure GoURL where
  scheme : Str
  host : Str
  path : Str
  rawQuery : Str
  forceQuery : Bool
deriving DecidableEq

def isCtl (c : Char) : Bool := c.toNat < 32 ∨ c.toNat = 127

def isAlphaChar (c : Char) : Bool :=
  (65 ≤ c.toNat ∧ c.toNat ≤ 90) ∨ (97 ≤ c.toNat ∧ c.toNat ≤ 122)

def isSchemeChar (c : Char) : Bool :=
  isAlphaChar c ∨ (48 ≤ c.toNat ∧ c.toNat ≤ 57) ∨ c = '+' ∨ c = '-' ∨ c = '.'

def validScheme (s : Str) : Bool :=
  match s with
  | [] => false
  | c :: cs => isAlphaChar c && cs.all isSchemeChar

/-- Go `getScheme`: `none` on a leading colon, otherwise the scheme (lowered)
and the remainder, or no scheme at all. -/
def getScheme (s : Str) : Option (Str × Str) :=
  match splitFirst ':' s with
  | (before, some after) =>
    if before = [] then none
    else if validScheme before then some (lowerStr before, after)
    else some ([], s)
  | (_, none) => some ([], s)

/-- Last segment after splitting on `sep` (e.g. host after the last `@`). -/
def afterLast (sep : Char) (s : Str) : Str := (splitOnChar sep s).getLastD []

def allDigits (s : Str) : Bool := s.all (fun c => 48 ≤ c.toNat ∧ c.toNat ≤ 57)

/-- Go `parseHost` on a non-bracketed host: an optional `:port` suffix must
be numeric; percent-escapes are out of the model scope. -/
def parseHostModel (authority : Str) : Option Str :=
  if authority.contains '%' then none
  else
    let host := afterLast '@' authority
    match splitFirst ':' host.reverse with
    | (revPort, some _) => if allDigits revPort.reverse then some host else none
    | (_, none) => some host

/-- Whether the first path segment contains a colon (Go rejects such
scheme-less URLs). -/
def colonInFirstSeg (rest : Str) : Bool := ((splitFirst '/' rest).1).contains ':'

/-- Go `url.Parse` (fragment is split off and otherwise ignored by the
verifier). -/
def urlParse (s : Str) : Option GoURL :=
  if s.any isCtl then none
  else
    let u := (splitFirst '#' s).1
    if (match (splitFirst '#' s).2 with | some f => f.contains '%' | none => false) then none
    else
      match getScheme u with
      | none => none
      | some (scheme, rest0) =>
        let cut :=
          if rest0.getLast? = some '?' ∧ ¬(rest0.dropLast.contains '?') then
            (rest0.dropLast, ([] : Str), true)
          else
            match splitFirst '?' rest0 with
            | (r, some q) => (r, q, false)
            | (r, none) => (r, [], false)
        let rest := cut.1
        let rawQuery := cut.2.1
        let forceQuery := cut.2.2
        if rest.take 1 ≠ ['/'] ∧ scheme ≠ [] then
          -- opaque URL: host and path empty
          some ⟨scheme, [], [], rawQuery, forceQuery⟩
        else if rest.take 1 ≠ ['/'] ∧ scheme = [] ∧ colonInFirstSeg rest then none
        else if (scheme ≠ [] ∨ rest.take 3 ≠ ['/', '/', '/']) ∧ rest.take 2 = ['/', '/'] then
          let afterSlashes := rest.drop 2
          let ap :=
            match splitFirst '/' afterSlashes with
            | (a, some p) => (a, '/' :: p)
            | (a, none) => (a, ([] : Str))
          match parseHostModel ap.1 with
          | none => none
          | some host =>
            if ap.2.contains '%' then none
            else some ⟨scheme, host, ap.2, rawQuery, forceQuery⟩
        else if rest.contains '%' then none
        else some ⟨scheme, [], rest, rawQuery, forceQuery⟩

/-! ## The trusted host pattern

Decidable model of the anchored regular expression
`^sts(\.[a-z1-9\-]+)?\.aliyuncs\.com(\.cn)?$` (note: the digit class is
`1-9`, and the optional middle label may not be empty).  The two possible
suffix splits are checked explicitly; the middle group cannot contain a
dot, so each split determines the middle uniquely. -/

def isHostClassChar (c : Char) : Bool :=
  (97 ≤ c.toNat ∧ c.toNat ≤ 122) ∨ (49 ≤ c.toNat ∧ c.toNat ≤ 57) ∨ c = '-'

def midOk (m : Str) : Bool :=
  match m with
  | [] => true
  | '.' :: w => w ≠ [] && w.all isHostClassChar
  | _ => false

def dropTail (n : Nat) (s : Str) : Str := s.take (s.length - n)

def hostMatch (h : Str) : Bool :=
  ("sts").data.isPrefixOf h &&
  (let r := h.drop 3
   ((".aliyuncs.com").data.isSuffixOf r && midOk (dropTail 13 r)) ||
   ((".aliyuncs.com.cn").data.isSuffixOf r && midOk (dropTail 16 r)))

/-! ## SHA-1 and HMAC-SHA1 (Go `crypto/sha1`, `crypto/hmac`) -/

def w32 (n : Nat) : Nat := n % 4294967296

def rotl32 (n s : Nat) : Nat :=
  let m := w32 n
  w32 (m * 2 ^ s) + m / 2 ^ (32 - s)

/-- Big-endian bytes of a 32-bit word. -/
def be32 (n : Nat) : List Nat :=
  [n / 16777216 % 256, n / 65536 % 256, n / 256 % 256, n % 256]

/-- Big-endian bytes of a 64-bit length. -/
def be64 (n : Nat) : List Nat :=
  [n / 2 ^ 56 % 256, n / 2 ^ 48 % 256, n / 2 ^ 40 % 256, n / 2 ^ 32 % 256,
   n / 16777216 % 256, n / 65536 % 256, n / 256 % 256, n % 256]

/-- Big-endian 32-bit words of a byte list. -/
def toWords : List Nat → List Nat
  | b1 :: b2 :: b3 :: b4 :: rest =>
    (((b1 * 256 + b2) * 256 + b3) * 256 + b4) :: toWords rest
  | _ => []

/-- SHA-1 message schedule for one block. -/
def sha1W (block : List Nat) : List Nat :=
  (List.range 80).foldl
    (fun w t =>
      if t < 16 then w ++ [(toWords block).getD t 0]
      else
        w ++ [rotl32 ((w.getD (t - 3) 0) ^^^ (w.getD (t - 8) 0) ^^^
          (w.getD (t - 14) 0) ^^^ (w.getD (t - 16) 0)) 1])
    []

/-- SHA-1 compression of one 64-byte block. -/
def sha1Compress (h : Nat × Nat × Nat × Nat × Nat) (block : List Nat) :
    Nat × Nat × Nat × Nat × Nat :=
  let w := sha1W block
  let st :=
    (List.range 80).foldl
      (fun (st : Nat × Nat × Nat × Nat × Nat) t =>
        let a := st.1
        let b := st.2.1
        let c := st.2.2.1
        let d := st.2.2.2.1
        let e := st.2.2.2.2
        let f :=
          if t < 20 then (b &&& c) ||| ((b ^^^ 4294967295) &&& d)
          else if t < 40 then b ^^^ c ^^^ d
          else if t < 60 then (b &&& c) ||| (b &&& d) ||| (c &&& d)
          else b ^^^ c ^^^ d
        let k :=
          if t < 20 then 1518500249
          else if t < 40 then 1859775393
          else if t < 60 then 2400959708
          else 3395469782
        let temp := w32 (rotl32 a 5 + f + e + k + w.getD t 0)
        (temp, a, rotl32 b 30, c, d))
      h
  (w32 (h.1 + st.1), w32 (h.2.1 + st.2.1), w32 (h.2.2.1 + st.2.2.1),
   w32 (h.2.2.2.1 + st.2.2.2.1), w32 (h.2.2.2.2 + st.2.2.2.2))

/-- Merkle-Damgård padding: `0x80`, zeros to 56 mod 64, 8-byte bit length. -/
def sha1pad (msg : List Nat) : List Nat :=
  msg ++ 128 :: List.replicate ((56 - (msg.length + 1) % 64 + 64) % 64) 0 ++
    be64 (msg.length * 8)

def chunks64 (l : List Nat) : List (List Nat) :=
  if l = [] then [] else l.take 64 :: chunks64 (l.drop 64)
termination_by l.length
decreasing_by
  cases l with
  | nil => simp_all
  | cons a t => simp [List.length_drop]; omega

/-- SHA-1 of a byte list. -/
def sha1Hash (msg : List Nat) : List Nat :=
  let h :=
    (chunks64 (sha1pad msg)).foldl sha1Compress
      (1732584193, 4023233417, 2562383102, 271733878, 3285377520)
  be32 h.1 ++ be32 h.2.1 ++ be32 h.2.2.1 ++ be32 h.2.2.2.1 ++ be32 h.2.2.2.2

/-- HMAC-SHA1 (Go `hmac.New(sha1.New, key)`). -/
def hmacSha1 (key msg : List Nat) : List Nat :=
  let k0 := if key.length > 64 then sha1Hash key else key
  let k1 := k0 ++ List.replicate (64 - k0.length) 0
  sha1Hash ((k1.map (fun b => b ^^^ 92)) ++ sha1Hash ((k1.map (fun b => b ^^^ 54)) ++ msg))

theorem sha1Hash_length (msg : List Nat) : (sha1Hash msg).length = 20 := by
  simp [sha1Hash, be32]

theorem be32_bytes (n : Nat) : ∀ b ∈ be32 n, b < 256 := by
  intro b hb
  simp only [be32, List.mem_cons, List.not_mem_nil, or_false] at hb
  rcases hb with h | h | h | h <;> omega

theorem sha1Hash_bytes (msg : List Nat) : ∀ b ∈ sha1Hash msg, b < 256 := by
  intro b hb
  simp only [sha1Hash, List.mem_append] at hb
  rcases hb with (((h | h) | h) | h) | h <;> exact be32_bytes _ b h

theorem hmacSha1_length (key msg : List Nat) : (hmacSha1 key msg).length = 20 :=
  sha1Hash_length _

theorem hmacSha1_bytes (key msg : List Nat) : ∀ b ∈ hmacSha1 key msg, b < 256 :=
  sha1Hash_bytes _

/-! ## Token generator (`generator.GetWithSTS`)

The STS client accessors, the two `time.Now()` readings and the fresh UUID
nonce are effect parameters: `accessKey`, `accessSecret`, `securityToken`
are the credential values, `timestamp` is the already-formatted UTC
timestamp of the first reading, `nonce` the UUID string, and `now` the
second reading (in seconds) used for the expiration. -/

def tokenV1Head : Str := ("k8s-ack-v1.").data
def tokenV2Head : Str := ("k8s-ack-v2.").data

def stsHostStr : Str := ("https://sts.aliyuncs.com/").data

structure TokenM where
  token : Str
  expiration : Nat
deriving DecidableEq

/-- The query string assembled by `GetWithSTS`, in source concatenation
order; `Timestamp` and `SecurityToken` values are query-escaped, the rest
are inserted raw. -/
def buildQueryStr (accessKey clusterID securityToken timestamp nonce : Str) : Str :=
  ("SignatureVersion=1.0").data
  ++ ("&Format=JSON").data
  ++ ("&Timestamp=").data ++ queryEscape timestamp
  ++ ("&AccessKeyId=").data ++ accessKey
  ++ ("&SignatureMethod=HMAC-SHA1").data
  ++ ("&Version=2015-04-01").data
  ++ ("&SignatureNonce=").data ++ nonce
  ++ ("&Action=GetCallerIdentity").data
  ++ ("&ClusterId=").data ++ clusterID
  ++ (if securityToken = [] then [] else ("&SecurityToken=").data ++ queryEscape securityToken)

/-- Byte-wise (ASCII) string order used by Go `sort.Strings`. -/
def strLe : Str → Str → Bool
  | [], _ => true
  | _ :: _, [] => false
  | a :: as, b :: bs =>
    if a.toNat < b.toNat then true
    else if b.toNat < a.toNat then false
    else strLe as bs

def joinAmp : List Str → Str
  | [] => []
  | [x] => x
  | x :: rest => x ++ '&' :: joinAmp rest

def valuesGetAll (k : Str) : Values → List Str
  | [] => []
  | (k2, vs) :: rest => if k2 = k then vs else valuesGetAll k rest

/-- Go `url.Values.Encode`: keys sorted, keys and values query-escaped. -/
def valuesEncode (vs : Values) : Str :=
  let keys := (vs.map Prod.fst).mergeSort strLe
  joinAmp
    ((keys.map
      (fun k => (valuesGetAll k vs).map (fun v => queryEscape k ++ '=' :: queryEscape v))).flatten)

/-- `generator.GetWithSTS`: build the query, re-parse it, sign the sorted
encoding with HMAC-SHA1 of the secret plus `&`, emit the presigned URL as a
v1 token; expiration is the current time plus 14 minutes (the 15-minute
presigned-URL validity minus a one-minute margin). -/
def getWithSTS (clusterID accessKey accessSecret securityToken timestamp nonce : Str)
    (now : Nat) : Except Str TokenM :=
  let queryStr := buildQueryStr accessKey clusterID securityToken timestamp nonce
  let pq := parseQueryGo queryStr
  if pq.2 then .error ("invalid query string").data
  else
    let result := valuesEncode pq.1
    let strToSign := ("GET&%2F&").data ++ queryEscape result
    let signature := b64EncodeBytes (hmacSha1 (bytesOf accessSecret ++ [38]) (bytesOf strToSign))
    let url := stsHostStr ++ '?' :: (queryStr ++ ("&Signature=").data ++ queryEscape signature)
    .ok ⟨tokenV1Head ++ b64EncodeBytes (bytesOf url), now + 840⟩

/-! ## Token verifier (`tokenVerifier.Verify`), up to the HTTP replay -/

/-- Simplified Go `%q`: exact for strings with no escapes needed. -/
def goQuote (s : Str) : Str := '"' :: (s ++ ['"'])

inductive VerifyError where
  | formatError (msg : Str)
  | stsError (status : Nat) (msg : Str)
  | v2NotModelled
deriving DecidableEq

/-- The presigned-URL query parameter allow-list (source
`parameterWhitelist`). -/
def parameterWhitelist : List Str :=
  [("action").data, ("durationseconds").data, ("signatureversion").data,
   ("signaturenonce").data, ("signaturemethod").data, ("accesskeyid").data,
   ("timestamp").data, ("signature").data, ("format").data, ("version").data,
   ("rolesessionname").data, ("rolearn").data, ("securitytoken").data,
   ("clusterid").data,
   ("x-acs-action").data, ("x-acs-version").data, ("authorization").data,
   ("x-acs-signature-nonce").data, ("x-acs-date").data,
   ("x-acs-content-sha256").data, ("x-acs-content-sm3").data,
   ("x-acs-security-token").data, ("ackclusterid").data]

def whitelisted (k : Str) : Bool := parameterWhitelist.contains k

structure VerifierCfg where
  clusterID : Str
  stsEndpoint : Str

/-- The validation loop over query parameters: each key must be
allow-listed after lowering, have exactly one value, and is collected into
the lowered map (`queryParamsLower`). -/
def checkParams : Values → Values → Except VerifyError Values
  | [], acc => .ok acc
  | (k, vs) :: rest, acc =>
    if ¬whitelisted (lowerStr k) then
      .error (.formatError (("non-whitelisted query parameter ").data ++ goQuote k))
    else if vs.length ≠ 1 then
      .error (.formatError ("query parameter with multiple values not supported").data)
    else checkParams rest (valuesSet (lowerStr k) (vs.headD []) acc)

/-- The v1 validation chain of `tokenVerifier.Verify` from the parsed URL
onward: scheme, host pattern, host rewrite to the trusted endpoint, path,
parameter allow-listing, `Action` and `ClusterId` checks, `AccessKeyId`
extraction. -/
def verifyParsedURL (cfg : VerifierCfg) (u : GoURL) : Except VerifyError (Str × GoURL) :=
  if u.scheme ≠ ("https").data then
    .error (.formatError (("unexpected scheme ").data ++ goQuote u.scheme ++
      (" in pre-signed URL").data))
  else if ¬hostMatch u.host then
    .error (.formatError (("unexpected hostname ").data ++ goQuote u.host ++
      (" in pre-signed URL").data))
  else
    let u2 := { u with host := cfg.stsEndpoint }
    if u2.path ≠ ("/").data then
      .error (.formatError ("unexpected path in pre-signed URL").data)
    else
      match checkParams (parseQueryGo u2.rawQuery).1 [] with
      | .error e => .error e
      | .ok lower =>
        if valuesGet ("action").data lower ≠ ("GetCallerIdentity").data then
          .error (.formatError ("unexpected action parameter in pre-signed URL").data)
        else if valuesGet ("clusterid").data lower ≠ cfg.clusterID then
          .error (.formatError (("unexpected clusterid ").data ++
            valuesGet ("clusterid").data lower ++ (" in token").data))
        else .ok (valuesGet ("accesskeyid").data lower, u2)

/-- `tokenVerifier.Verify`, from the token string to the point just before
the HTTP request is issued.  On success it returns the extracted
`AccessKeyId` and the request URL with the host already rewritten to the
configured trusted endpoint.  The v2 path (`parseV2Token`) is absent from
the source extract and is left unmodelled. -/
def verifyPre (cfg : VerifierCfg) (token : Str) : Except VerifyError (Str × GoURL) :=
  if goLen token > 4096 then .error (.formatError ("token is too large").data)
  else if ¬(tokenV1Head.isPrefixOf token ∨ tokenV2Head.isPrefixOf token) then
    .error (.formatError ("token is missing expected prefix").data)
  else
    match b64Decode (trimHead tokenV2Head (trimHead tokenV1Head token)) with
    | none => .error (.formatError ("illegal base64 data").data)
    | some tokenBytes =>
      if tokenV2Head.isPrefixOf token then .error .v2NotModelled
      else
        match urlParse (charsOf tokenBytes) with
        | none => .error (.formatError ("invalid URL").data)
        | some u => verifyParsedURL cfg u

/-! ## ARN canonicalization and identity extraction -/

def isDigitChar (c : Char) : Bool := 48 ≤ c.toNat ∧ c.toNat ≤ 57

/-- Modelled from the spec: the `arn` package (`arn.Canonicalize`) is not in
the source extract (only its callers are).  Per spec §4.1 an ARN
`acs:<ram|sts>::<digits>:<resource>` with resource prefix among `role/`,
`user/`, `assumed-role/`, `federated-user/` is accepted;
`assumed-role/<role>/<session>` collapses to the RAM form
`acs:ram::<account>:role/<role>` (per the `Identity.CanonicalARN` doc
comment in the source); everything else is an `InvalidArn` error. -/
def canonicalize (a : Str) : Except Str Str :=
  match splitOnChar ':' a with
  | [p0, svc, p2, acct, res] =>
    if p0 = ("acs").data ∧ (svc = ("ram").data ∨ svc = ("sts").data) ∧ p2 = [] ∧
        acct ≠ [] ∧ acct.all isDigitChar then
      if ("assumed-role/").data.isPrefixOf res then
        match splitOnChar '/' res with
        | _ :: roleName :: _ =>
          .ok (("acs:ram::").data ++ acct ++ (":role/").data ++ roleName)
        | _ => .error (("invalid arn ").data ++ a)
      else if ("role/").data.isPrefixOf res ∨ ("user/").data.isPrefixOf res ∨
          ("federated-user/").data.isPrefixOf res then
        .ok a
      else .error (("invalid arn ").data ++ a)
    else .error (("invalid arn ").data ++ a)
  | _ => .error (("invalid arn ").data ++ a)

/-- The Go call sites receive `(canonicalized, err)`; on error the first
component is the empty string (Go zero value, per the spec-modelled
`Canonicalize`). -/
def goCanonicalizeFst (a : Str) : Str :=
  match canonicalize a with
  | .ok c => c
  | .error _ => []

structure IdentityM where
  arn : Str
  canonicalARN : Str
  accountId : Str
  userId : Str
  sessionName : Str
  accessKeyId : Str
deriving DecidableEq

/-- JSON payload of a successful `GetCallerIdentity` response
(`getCallerIdentityWrapper`). -/
structure CallerIdentityW where
  accountId : Str
  userId : Str
  roleId : Str
  arn : Str
  identityType : Str
  principalId : Str
  requestId : Str
deriving DecidableEq

/-- The tail of `tokenVerifier.Verify` after a 200 response has been
unmarshalled: canonicalize the ARN, attach the access key, and split
`PrincipalId` on `:` (two parts give user id and session name, one part a
bare user id, anything else is a malformed-principal error). -/
def extractIdentity (accessKeyId : Str) (ci : CallerIdentityW) : Except VerifyError IdentityM :=
  match canonicalize ci.arn with
  | .error e => .error (.stsError 400 e)
  | .ok canon =>
    let parts := splitOnChar ':' ci.principalId
    if parts.length = 2 then
      .ok ⟨ci.arn, canon, ci.accountId, parts.getD 0 [], parts.getD 1 [], accessKeyId⟩
    else if parts.length = 1 then
      .ok ⟨ci.arn, canon, ci.accountId, parts.getD 0 [], [], accessKeyId⟩
    else
      .error (.stsError 400 (("malformed UserID ").data ++ goQuote ci.principalId))

/-! ## Dynamic file mapper (`pkg/mapper/dynamicfile`) -/

/-- `config.UserMapping` (the `config` package is outside the extract; the
fields are those the dynamic file JSON uses, spec §6). -/
structure UserMapping where
  userARN : Str
  username : Str
  groups : List Str
deriving DecidableEq

structure RoleMapping where
  roleARN : Str
  username : Str
  groups : List Str
deriving DecidableEq

/-- `DynamicFileData` after JSON unmarshalling. -/
structure DynamicFileData where
  userMappings : List UserMapping
  roleMappings : List RoleMapping
  autoMappedAccounts : List Str
deriving DecidableEq

/-- `ParseMap` from the point after a successful `json.Unmarshal`: entries
lacking `userarn`/`rolearn` are dropped and produce one error message each;
the rest survive in order (source lines 151-173). -/
def parseMapFromData (d : DynamicFileData) :
    List UserMapping × List RoleMapping × List Str × List Str :=
  let uacc := d.userMappings.foldl
    (fun (p : List UserMapping × List Str) u =>
      if u.userARN = [] then (p.1, p.2 ++ [("Value for userarn must be supplied").data])
      else (p.1 ++ [u], p.2))
    ([], [])
  let racc := d.roleMappings.foldl
    (fun (p : List RoleMapping × List Str) r =>
      if r.roleARN = [] then (p.1, p.2 ++ [("Value for rolearn must be supplied").data])
      else (p.1 ++ [r], p.2))
    ([], [])
  (uacc.1, racc.1, d.autoMappedAccounts, uacc.2 ++ racc.2)

/-- Go map assignment `m[k] = v` on an association-list model. -/
def assocSet {β : Type} (k : Str) (v : β) : List (Str × β) → List (Str × β)
  | [] => [(k, v)]
  | (k2, v2) :: rest => if k2 = k then (k, v) :: rest else (k2, v2) :: assocSet k v rest

def assocGet {β : Type} (k : Str) : List (Str × β) → Option β
  | [] => none
  | (k2, v2) :: rest => if k2 = k then some v2 else assocGet k rest

/-- `DynamicFileMapStore` snapshot (the three maps). -/
structure DFStore where
  users : List (Str × UserMapping)
  roles : List (Str × RoleMapping)
  aliAccounts : List Str
deriving DecidableEq

/-- `DynamicFileMapStore.saveMap`: rebuild the three maps; each ARN is
lower-cased and canonicalized, the canonicalization error being discarded
with `_` (source lines 175-197). -/
def saveMap (userMappings : List UserMapping) (roleMappings : List RoleMapping)
    (aliAccounts : List Str) : DFStore :=
  { users := userMappings.foldl
      (fun m u => assocSet (goCanonicalizeFst (lowerStr u.userARN)) u m) []
  , roles := roleMappings.foldl
      (fun m r => assocSet (goCanonicalizeFst (lowerStr r.roleARN)) r m) []
  , aliAccounts := aliAccounts.foldl
      (fun acc a => if acc.contains a then acc else acc ++ [a]) [] }

/-- `loadDynamicFile` after the file content parsed to `d`: a parse error
leaves the store untouched and returns the error; otherwise the new
snapshot is installed (source lines 61-77). -/
def loadDynamicFileFromData (d : DynamicFileData) (st : DFStore) :
    DFStore × Option (List Str) :=
  let p := parseMapFromData d
  if p.2.2.2 = [] then (saveMap p.1 p.2.1 p.2.2.1, none)
  else (st, some p.2.2.2)

/-! ## CRD mapper (`CRDMapper.Map`, controller wildcard cache) -/

structure RIMSpec where
  arn : Str
  username : Str
  groups : List Str
deriving DecidableEq

structure RIMStatus where
  canonicalARN : Str
deriving DecidableEq

structure RAMIdentityMapping where
  name : Str
  spec : RIMSpec
  status : RIMStatus
deriving DecidableEq

/-- `IndexRAMIdentityMappingByCanonicalArn`: the index keys of a resource
(empty when no canonical ARN is recorded). -/
def indexRAMIdentityMappingByCanonicalArn (m : RAMIdentityMapping) : List Str :=
  if m.status.canonicalARN = [] then [] else [m.status.canonicalARN]

/-- The informer indexer `ByIndex("canonicalARN", key)`: all stored
resources with that index key. -/
def byIndex (store : List RAMIdentityMapping) (key : Str) : List RAMIdentityMapping :=
  store.filter (fun m => (indexRAMIdentityMappingByCanonicalArn m).contains key)

structure IdentityMapping where
  identityARN : Str
  username : Str
  groups : List Str
deriving DecidableEq

inductive MapError where
  | notMapped
deriving DecidableEq

/-- `CRDMapper.Map` (source part_001 lines 89-117): lower-case the query,
look it up in the canonicalARN index, return the first hit, otherwise
`ErrNotMapped`.  The wildcard cache is not consulted. -/
def crdMapperMap (store : List RAMIdentityMapping) (canonicalARN : Str) :
    Except MapError IdentityMapping :=
  let lowered := lowerStr canonicalARN
  match byIndex store lowered with
  | m :: _ => .ok ⟨lowered, m.spec.username, m.spec.groups⟩
  | [] => .error .notMapped

/-- `CRDMapper.IsAccountAllowed` (source part_001 lines 119-121). -/
def crdIsAccountAllowed (_accountID : Str) : Bool :=
  false

/-- `hasWildDedinedInMappingArn` (controller.go): whether the ARN contains
`?` or `*`. -/
def hasWildDedinedInMappingArn (arn : Str) : Bool :=
  arn.any (fun c => c = '?' ∨ c = '*')

/-- The wildcard-cache refresh inside `Controller.syncHandler` (controller.go
lines 267-277): when the canonicalized ARN contains a wildcard, the updated
resource is cloned into the cache under its name. -/
def syncWildCacheInsert (cache : List (Str × RAMIdentityMapping))
    (m : RAMIdentityMapping) (canonicalizedARN : Str) :
    List (Str × RAMIdentityMapping) :=
  if hasWildDedinedInMappingArn canonicalizedARN then
    assocSet m.name { m with status := ⟨canonicalizedARN⟩ } cache
  else cache

/-- Modelled from the spec: no glob matcher exists anywhere in the source
extract; spec §4.7 defines the wildcard semantics the cache is meant for
(`?` matches exactly one character, `*` zero or more).  Structural
recursion on a fuel counter; every recursive call shrinks
`p.length + s.length`, so fuel `p.length + s.length + 1` always
suffices. -/
def globMatchAux : Nat → Str → Str → Bool
  | 0, _, _ => false
  | fuel + 1, p, s =>
    match p, s with
    | [], [] => true
    | '*' :: ps, s =>
      globMatchAux fuel ps s ||
        (match s with
         | [] => false
         | _ :: s2 => globMatchAux fuel ('*' :: ps) s2)
    | '?' :: ps, _ :: s => globMatchAux fuel ps s
    | p :: ps, c :: s => p = c && globMatchAux fuel ps s
    | _, _ => false

def globMatch (p s : Str) : Bool := globMatchAux (p.length + s.length + 1) p s

/-! ## Endpoint resolution and aggregation -/

def defaultSTSEndpointStr : Str := ("sts.aliyuncs.com").data

/-- `vpcStsEndpoint` is the format string `https://sts-vpc.%s.aliyuncs.com`. -/
def vpcStsEndpointFmt (region : Str) : Str :=
  ("https://sts-vpc.").data ++ region ++ (".aliyuncs.com").data

/-- Endpoint resolution in `generator.GetWithOptions` (source lines
259-267): an empty option region falls back to the instance metadata
region (`utils.GetMetaData`, outside the extract, passed as a parameter);
the default endpoint is used only when both are empty. -/
def resolveSTSEndpoint (optionsRegion metadataRegion : Str) : Str :=
  let region := if optionsRegion = [] then metadataRegion else optionsRegion
  if region = [] then defaultSTSEndpointStr else vpcStsEndpointFmt region

/-- Modelled from the spec: the mapper aggregator (spec §4.8) is outside
the source extract; `IsAccountAllowed` over an ordered mapper list is a
logical OR. -/
def aggIsAccountAllowed (mappers : List (Str → Bool)) (accountID : Str) : Bool :=
  mappers.any (fun f => f accountID)

instance {ε α : Type} [DecidableEq ε] [DecidableEq α] : DecidableEq (Except ε α) := fun x y =>
  match x, y with
  | .ok a, .ok b => if h : a = b then .isTrue (by rw [h]) else .isFalse (by simp [h])
  | .error a, .error b => if h : a = b then .isTrue (by rw [h]) else .isFalse (by simp [h])
  | .ok _, .error _ => .isFalse (by simp)
  | .error _, .ok _ => .isFalse (by simp)

/-! ## Helper lemmas for the mapper claims -/

theorem assocGet_assocSet_eq {β : Type} (k : Str) (v : β) (m : List (Str × β)) :
    assocGet k (assocSet k v m) = some v := by
  induction m with
  | nil => simp [assocSet, assocGet]
  | cons e rest ih =>
    obtain ⟨k2, v2⟩ := e
    by_cases h : k2 = k
    · subst h; simp [assocSet, assocGet]
    · simp [assocSet, assocGet, h, ih]

theorem assocGet_assocSet_ne {β : Type} (k k2 : Str) (v : β) (m : List (Str × β))
    (h : k2 ≠ k) : assocGet k2 (assocSet k v m) = assocGet k2 m := by
  induction m with
  | nil =>
    simp only [assocSet, assocGet]
    rw [if_neg (fun he => h he.symm)]
  | cons e rest ih =>
    obtain ⟨k3, v3⟩ := e
    by_cases h3 : k3 = k
    · subst h3
      simp only [assocSet, if_pos rfl, assocGet]
      rw [if_neg (fun he => h he.symm), if_neg]
      intro he
      exact h he.symm
    · simp only [assocSet, if_neg h3, assocGet]
      by_cases h4 : k3 = k2
      · simp [h4]
      · simp [h4, ih]

theorem assocGet_foldSet {α : Type} (keyOf : α → Str) (l : List α)
    (m : List (Str × α)) (k : Str) :
    assocGet k (l.foldl (fun m2 u => assocSet (keyOf u) u m2) m) =
      (match (l.filter (fun u => keyOf u = k)).getLast? with
       | some w => some w
       | none => assocGet k m) := by
  induction l generalizing m with
  | nil => simp
  | cons u rest ih =>
    rw [List.foldl_cons, ih]
    by_cases hk : keyOf u = k
    · rw [List.filter_cons_of_pos (by simp [hk])]
      cases hrest : (rest.filter (fun w => keyOf w = k)).getLast? with
      | some w => simp [List.getLast?_cons, hrest, List.getLastD_eq_getLast?]
      | none =>
        simp only [List.getLast?_cons, hrest, List.getLastD_eq_getLast?, Option.getD]
        subst hk
        simp [assocGet_assocSet_eq]
    · rw [List.filter_cons_of_neg (by simp [hk])]
      cases hrest : (rest.filter (fun w => keyOf w = k)).getLast? with
      | some w => simp
      | none => simp [assocGet_assocSet_ne _ _ _ _ (fun he => hk he.symm)]

theorem canonicalize_ok_ne_nil (a c : Str) (h : canonicalize a = .ok c) : c ≠ [] := by
  unfold canonicalize at h
  split at h
  · rename_i p0 svc p2 acct res hsplit
    split at h
    · rename_i hcond
      split at h
      · split at h
        · simp only [Except.ok.injEq] at h
          subst h
          simp
        · simp at h
      · split at h
        · simp only [Except.ok.injEq] at h
          subst h
          intro hnil
          subst hnil
          simp at hsplit
        · simp at h
    · simp at h
  · simp at h

theorem goCanonicalizeFst_eq_nil_iff (a : Str) :
    goCanonicalizeFst a = [] ↔ (canonicalize a).isOk = false := by
  unfold goCanonicalizeFst
  cases h : canonicalize a with
  | ok c =>
    simp only [Except.isOk, Except.toBool]
    exact ⟨fun hc => absurd hc (canonicalize_ok_ne_nil a c h), fun hb => by simp at hb⟩
  | error e => simp [Except.isOk, Except.toBool]

/-! ## Claim theorems: mappers -/

/-- C9: `CRDMapper.IsAccountAllowed` returns `false` for every account id,
so in the aggregator logical OR (spec-modelled, §4.8) the CRD mapper
contributes nothing to account allowance. -/
theorem claim_c9_crd_account_never_allowed (accountID : Str)
    (ms1 ms2 : List (Str → Bool)) :
    crdIsAccountAllowed accountID = false ∧
    aggIsAccountAllowed (ms1 ++ crdIsAccountAllowed :: ms2) accountID =
      aggIsAccountAllowed (ms1 ++ ms2) accountID := by
  constructor
  · rfl
  · simp [aggIsAccountAllowed, crdIsAccountAllowed]

/-- C7 counterexample: with region `cn-hangzhou` configured, the resolved
endpoint is `https://sts-vpc.cn-hangzhou.aliyuncs.com` — not the
scheme-less `sts-vpc.cn-hangzhou.aliyuncs.com` claimed — and with no
region configured the metadata region takes over instead of the default. -/
theorem claim_c7_counterexample :
    resolveSTSEndpoint (("cn-hangzhou").data) [] =
      ("https://sts-vpc.cn-hangzhou.aliyuncs.com").data ∧
    resolveSTSEndpoint (("cn-hangzhou").data) [] ≠
      ("sts-vpc.cn-hangzhou.aliyuncs.com").data ∧
    resolveSTSEndpoint [] (("cn-beijing").data) =
      ("https://sts-vpc.cn-beijing.aliyuncs.com").data ∧
    resolveSTSEndpoint [] (("cn-beijing").data) ≠ ("sts.aliyuncs.com").data := by
  decide

/-- C7 amended: with a region given the endpoint is
`https://sts-vpc.<region>.aliyuncs.com`; with none given, the instance
metadata region is consulted and used the same way; the default
`sts.aliyuncs.com` is used only when both are empty. -/
theorem claim_c7_endpoint_resolution (r m : Str) :
    (r ≠ [] → resolveSTSEndpoint r m =
      ("https://sts-vpc.").data ++ r ++ (".aliyuncs.com").data) ∧
    (r = [] → m ≠ [] → resolveSTSEndpoint r m =
      ("https://sts-vpc.").data ++ m ++ (".aliyuncs.com").data) ∧
    (r = [] → m = [] → resolveSTSEndpoint r m = ("sts.aliyuncs.com").data) := by
  refine ⟨fun h1 => ?_, fun h1 h2 => ?_, fun h1 h2 => ?_⟩
  · simp [resolveSTSEndpoint, vpcStsEndpointFmt, h1]
  · simp [resolveSTSEndpoint, vpcStsEndpointFmt, h1, h2]
  · simp [resolveSTSEndpoint, defaultSTSEndpointStr, h1, h2]

/-- C7 witness: the amended endpoint resolution evaluated at concrete
regions. -/
theorem claim_c7_endpoint_resolution_witness :
    resolveSTSEndpoint (("r1").data) (("m1").data) =
      ("https://sts-vpc.").data ++ ("r1").data ++ (".aliyuncs.com").data ∧
    resolveSTSEndpoint [] (("m1").data) =
      ("https://sts-vpc.").data ++ ("m1").data ++ (".aliyuncs.com").data ∧
    resolveSTSEndpoint [] [] = ("sts.aliyuncs.com").data :=
  ⟨(claim_c7_endpoint_resolution (("r1").data) (("m1").data)).1 (by decide),
   (claim_c7_endpoint_resolution [] (("m1").data)).2.1 rfl (by decide),
   (claim_c7_endpoint_resolution [] []).2.2 rfl rfl⟩

/-- C2: the controller canonicalizes the wildcard ARN, records it as a
wildcard, and inserts the resource into the wildcard cache, and the query
`acs:ram::111122223333:role/dev-alice` glob-matches the cached pattern —
yet `CRDMapper.Map` answers `ErrNotMapped` because it only consults the
exact canonicalARN index and never the wildcard cache. -/
theorem claim_c2_wildcard_cache_never_consulted :
    canonicalize (lowerStr (("acs:ram::111122223333:role/dev-*").data)) =
      .ok (("acs:ram::111122223333:role/dev-*").data) ∧
    hasWildDedinedInMappingArn (("acs:ram::111122223333:role/dev-*").data) = true ∧
    syncWildCacheInsert []
        ⟨("m1").data, ⟨("acs:ram::111122223333:role/dev-*").data, ("devs").data, []⟩, ⟨[]⟩⟩
        (("acs:ram::111122223333:role/dev-*").data) =
      [(("m1").data,
        ⟨("m1").data, ⟨("acs:ram::111122223333:role/dev-*").data, ("devs").data, []⟩,
         ⟨("acs:ram::111122223333:role/dev-*").data⟩⟩)] ∧
    globMatch (("acs:ram::111122223333:role/dev-*").data)
      (("acs:ram::111122223333:role/dev-alice").data) = true ∧
    crdMapperMap
        [⟨("m1").data, ⟨("acs:ram::111122223333:role/dev-*").data, ("devs").data, []⟩,
          ⟨("acs:ram::111122223333:role/dev-*").data⟩⟩]
        (("acs:ram::111122223333:role/dev-alice").data) =
      .error .notMapped := by
  decide

/-- C10: in `saveMap`, entries whose lower-cased ARN fails canonicalization
are installed under the empty-string key — the lookup at `""` finds exactly
the last such entry (later failures overwrite earlier ones), and whenever a
failing entry exists the empty key is populated, so nothing is dropped or
reported. -/
theorem claim_c10_saveMap_silent_canonicalize_failures
    (us : List UserMapping) (rs : List RoleMapping) (accts : List Str) :
    (assocGet [] (saveMap us rs accts).users =
      (us.filter (fun u => (canonicalize (lowerStr u.userARN)).isOk = false)).getLast?) ∧
    (assocGet [] (saveMap us rs accts).roles =
      (rs.filter (fun r => (canonicalize (lowerStr r.roleARN)).isOk = false)).getLast?) ∧
    (∀ u ∈ us, (canonicalize (lowerStr u.userARN)).isOk = false →
      (assocGet [] (saveMap us rs accts).users).isSome = true) := by
  have hu : assocGet [] (saveMap us rs accts).users =
      (us.filter (fun u => (canonicalize (lowerStr u.userARN)).isOk = false)).getLast? := by
    show assocGet []
        (us.foldl (fun m u => assocSet (goCanonicalizeFst (lowerStr u.userARN)) u m) []) = _
    rw [assocGet_foldSet (fun u => goCanonicalizeFst (lowerStr u.userARN)) us [] []]
    rw [show (fun u : UserMapping => decide (goCanonicalizeFst (lowerStr u.userARN) = [])) =
        (fun u : UserMapping => decide ((canonicalize (lowerStr u.userARN)).isOk = false)) from
      funext fun u => decide_eq_decide.mpr (goCanonicalizeFst_eq_nil_iff (lowerStr u.userARN))]
    cases (us.filter
      (fun u => (canonicalize (lowerStr u.userARN)).isOk = false)).getLast? <;> simp [assocGet]
  have hr : assocGet [] (saveMap us rs accts).roles =
      (rs.filter (fun r => (canonicalize (lowerStr r.roleARN)).isOk = false)).getLast? := by
    show assocGet []
        (rs.foldl (fun m r => assocSet (goCanonicalizeFst (lowerStr r.roleARN)) r m) []) = _
    rw [assocGet_foldSet (fun r => goCanonicalizeFst (lowerStr r.roleARN)) rs [] []]
    rw [show (fun r : RoleMapping => decide (goCanonicalizeFst (lowerStr r.roleARN) = [])) =
        (fun r : RoleMapping => decide ((canonicalize (lowerStr r.roleARN)).isOk = false)) from
      funext fun r => decide_eq_decide.mpr (goCanonicalizeFst_eq_nil_iff (lowerStr r.roleARN))]
    cases (rs.filter
      (fun r => (canonicalize (lowerStr r.roleARN)).isOk = false)).getLast? <;> simp [assocGet]
  refine ⟨hu, hr, fun u hu2 hfail => ?_⟩
  rw [hu]
  have : u ∈ us.filter (fun u => (canonicalize (lowerStr u.userARN)).isOk = false) :=
    List.mem_filter.mpr ⟨hu2, by simp [hfail]⟩
  exact List.getLast?_isSome.mpr (List.ne_nil_of_mem this)

theorem parseMap_users_fold (l : List UserMapping) (acc : List UserMapping × List Str) :
    l.foldl
      (fun (p : List UserMapping × List Str) u =>
        if u.userARN = [] then (p.1, p.2 ++ [("Value for userarn must be supplied").data])
        else (p.1 ++ [u], p.2))
      acc =
      (acc.1 ++ l.filter (fun u => u.userARN ≠ []),
       acc.2 ++ (l.filter (fun u => u.userARN = [])).map
         (fun _ => ("Value for userarn must be supplied").data)) := by
  induction l generalizing acc with
  | nil => simp
  | cons u rest ih =>
    rw [List.foldl_cons]
    by_cases h : u.userARN = []
    · rw [if_pos h, ih, List.filter_cons_of_neg (by simp [h]),
        List.filter_cons_of_pos (by simp [h])]
      simp
    · rw [if_neg h, ih, List.filter_cons_of_pos (by simp [h]),
        List.filter_cons_of_neg (by simp [h])]
      simp

theorem parseMap_roles_fold (l : List RoleMapping) (acc : List RoleMapping × List Str) :
    l.foldl
      (fun (p : List RoleMapping × List Str) r =>
        if r.roleARN = [] then (p.1, p.2 ++ [("Value for rolearn must be supplied").data])
        else (p.1 ++ [r], p.2))
      acc =
      (acc.1 ++ l.filter (fun r => r.roleARN ≠ []),
       acc.2 ++ (l.filter (fun r => r.roleARN = [])).map
         (fun _ => ("Value for rolearn must be supplied").data)) := by
  induction l generalizing acc with
  | nil => simp
  | cons r rest ih =>
    rw [List.foldl_cons]
    by_cases h : r.roleARN = []
    · rw [if_pos h, ih, List.filter_cons_of_neg (by simp [h]),
        List.filter_cons_of_pos (by simp [h])]
      simp
    · rw [if_neg h, ih, List.filter_cons_of_pos (by simp [h]),
        List.filter_cons_of_neg (by simp [h])]
      simp

theorem parseMapFromData_spec (d : DynamicFileData) :
    parseMapFromData d =
      (d.userMappings.filter (fun u => u.userARN ≠ []),
       d.roleMappings.filter (fun r => r.roleARN ≠ []),
       d.autoMappedAccounts,
       (d.userMappings.filter (fun u => u.userARN = [])).map
         (fun _ => ("Value for userarn must be supplied").data) ++
       (d.roleMappings.filter (fun r => r.roleARN = [])).map
         (fun _ => ("Value for rolearn must be supplied").data)) := by
  unfold parseMapFromData
  rw [parseMap_users_fold, parseMap_roles_fold]
  simp

/-- C3 counterexample: a parsed file with one entry lacking `userarn` and
one well-formed user entry.  Loading it returns the accumulated
`ParseError` but leaves the (empty) store untouched: the surviving `alice`
mapping is NOT installed, contrary to the claim. -/
theorem claim_c3_counterexample :
    loadDynamicFileFromData
        ⟨[⟨[], ("u1").data, []⟩, ⟨("acs:ram::1:user/alice").data, ("alice").data, []⟩], [], []⟩
        ⟨[], [], []⟩ =
      (⟨[], [], []⟩, some [("Value for userarn must be supplied").data]) ∧
    assocGet (("acs:ram::1:user/alice").data)
      (loadDynamicFileFromData
        ⟨[⟨[], ("u1").data, []⟩, ⟨("acs:ram::1:user/alice").data, ("alice").data, []⟩], [], []⟩
        ⟨[], [], []⟩).1.users = none := by
  decide

/-- C3 amended: entries lacking `userarn`/`rolearn` are dropped with one
accumulated `ParseError` message each and the others survive in order, but
when any error accumulated, `loadDynamicFile` returns the error WITHOUT
installing the partial snapshot — the previous store is kept unchanged. -/
theorem claim_c3_partial_snapshot_not_installed (d : DynamicFileData) (st : DFStore)
    (h : (parseMapFromData d).2.2.2 ≠ []) :
    loadDynamicFileFromData d st = (st, some (parseMapFromData d).2.2.2) ∧
    (parseMapFromData d).1 = d.userMappings.filter (fun u => u.userARN ≠ []) ∧
    (parseMapFromData d).2.1 = d.roleMappings.filter (fun r => r.roleARN ≠ []) ∧
    (parseMapFromData d).2.2.2.length =
      (d.userMappings.filter (fun u => u.userARN = [])).length +
        (d.roleMappings.filter (fun r => r.roleARN = [])).length := by
  refine ⟨?_, ?_, ?_, ?_⟩
  · unfold loadDynamicFileFromData
    rw [if_neg h]
  · rw [parseMapFromData_spec]
  · rw [parseMapFromData_spec]
  · rw [parseMapFromData_spec]
    simp

/-- C3 witness: the amended load behaviour at the concrete two-entry file. -/
theorem claim_c3_partial_snapshot_not_installed_witness :
    loadDynamicFileFromData
        ⟨[⟨[], ("u1").data, []⟩, ⟨("acs:ram::1:user/alice").data, ("alice").data, []⟩], [], []⟩
        ⟨[], [], []⟩ =
      (⟨[], [], []⟩,
       some (parseMapFromData
         ⟨[⟨[], ("u1").data, []⟩, ⟨("acs:ram::1:user/alice").data, ("alice").data, []⟩],
          [], []⟩).2.2.2) :=
  (claim_c3_partial_snapshot_not_installed
    ⟨[⟨[], ("u1").data, []⟩, ⟨("acs:ram::1:user/alice").data, ("alice").data, []⟩], [], []⟩
    ⟨[], [], []⟩ (by decide)).1

/-- C8: after a successful response whose ARN canonicalizes, `Verify`
splits `PrincipalId` on `:`: two parts give `(UserID, SessionName)`, one
part a bare `UserID` with empty session, and any other shape is a
malformed-principal error with no identity. -/
theorem claim_c8_principal_split (ak : Str) (ci : CallerIdentityW) (canon : Str)
    (hc : canonicalize ci.arn = .ok canon) :
    (∀ a b : Str, splitOnChar ':' ci.principalId = [a, b] →
      extractIdentity ak ci = .ok ⟨ci.arn, canon, ci.accountId, a, b, ak⟩) ∧
    (∀ a : Str, splitOnChar ':' ci.principalId = [a] →
      extractIdentity ak ci = .ok ⟨ci.arn, canon, ci.accountId, a, [], ak⟩) ∧
    ((splitOnChar ':' ci.principalId).length ≠ 1 ∧
        (splitOnChar ':' ci.principalId).length ≠ 2 →
      extractIdentity ak ci =
        .error (.stsError 400 (("malformed UserID ").data ++ goQuote ci.principalId))) := by
  refine ⟨fun a b hs => ?_, fun a hs => ?_, fun hs => ?_⟩
  · unfold extractIdentity
    rw [hc, hs]
    simp
  · unfold extractIdentity
    rw [hc, hs]
    simp
  · obtain ⟨hs1, hs2⟩ := hs
    simp only [extractIdentity, hc]
    rw [if_neg (by omega : ¬(splitOnChar ':' ci.principalId).length = 2),
      if_neg (by omega : ¬(splitOnChar ':' ci.principalId).length = 1)]

/-- C8 witness: the three principal shapes at concrete inputs. -/
theorem claim_c8_principal_split_witness :
    extractIdentity (("LTAI5t").data)
        ⟨("111122223333").data, [], [], ("acs:ram::111122223333:role/admin").data, [],
         ("33333:sess1").data, []⟩ =
      .ok ⟨("acs:ram::111122223333:role/admin").data,
        ("acs:ram::111122223333:role/admin").data, ("111122223333").data,
        ("33333").data, ("sess1").data, ("LTAI5t").data⟩ ∧
    extractIdentity (("LTAI5t").data)
        ⟨("111122223333").data, [], [], ("acs:ram::111122223333:user/bob").data, [],
         ("44444").data, []⟩ =
      .ok ⟨("acs:ram::111122223333:user/bob").data,
        ("acs:ram::111122223333:user/bob").data, ("111122223333").data,
        ("44444").data, [], ("LTAI5t").data⟩ ∧
    extractIdentity (("LTAI5t").data)
        ⟨("111122223333").data, [], [], ("acs:ram::111122223333:user/bob").data, [],
         ("a:b:c").data, []⟩ =
      .error (.stsError 400 (("malformed UserID ").data ++ goQuote (("a:b:c").data))) := by
  refine ⟨?_, ?_, ?_⟩
  · exact (claim_c8_principal_split (("LTAI5t").data)
      ⟨("111122223333").data, [], [], ("acs:ram::111122223333:role/admin").data, [],
       ("33333:sess1").data, []⟩ (("acs:ram::111122223333:role/admin").data)
      (by decide)).1 (("33333").data) (("sess1").data) (by decide)
  · exact (claim_c8_principal_split (("LTAI5t").data)
      ⟨("111122223333").data, [], [], ("acs:ram::111122223333:user/bob").data, [],
       ("44444").data, []⟩ (("acs:ram::111122223333:user/bob").data)
      (by decide)).2.1 (("44444").data) (by decide)
  · exact (claim_c8_principal_split (("LTAI5t").data)
      ⟨("111122223333").data, [], [], ("acs:ram::111122223333:user/bob").data, [],
       ("a:b:c").data, []⟩ (("acs:ram::111122223333:user/bob").data)
      (by decide)).2.2 (by decide)

/-! ## Helper lemmas for the verifier claims -/

def lowerValues (l : Values) : Values :=
  l.foldl (fun a p => valuesSet (lowerStr p.1) (p.2.headD []) a) []

theorem not_v2_of_v1 {t : Str} (h : tokenV1Head.isPrefixOf t) :
    ¬ tokenV2Head.isPrefixOf t = true := by
  intro h2
  have h1p : tokenV1Head <+: t := List.isPrefixOf_iff_prefix.mp h
  have h2p : tokenV2Head <+: t := List.isPrefixOf_iff_prefix.mp h2
  have heq : tokenV1Head = tokenV2Head :=
    List.IsPrefix.eq_of_length
      (List.prefix_of_prefix_length_le h1p h2p (by decide)) (by decide)
  exact absurd heq (by decide)

/-- Reaching the URL-validation chain: a v1 token of legal length whose
payload decodes and parses hands over to `verifyParsedURL`. -/
theorem verifyPre_reaches (cfg : VerifierCfg) (t : Str) (bytes : List Nat) (u : GoURL)
    (hv1 : tokenV1Head.isPrefixOf t) (hlen : goLen t ≤ 4096)
    (hdec : b64Decode (trimHead tokenV2Head (trimHead tokenV1Head t)) = some bytes)
    (hurl : urlParse (charsOf bytes) = some u) :
    verifyPre cfg t = verifyParsedURL cfg u := by
  unfold verifyPre
  rw [if_neg (by omega : ¬goLen t > 4096),
    if_neg (fun hn => hn (Or.inl hv1))]
  simp only [hdec]
  rw [if_neg (not_v2_of_v1 hv1)]
  simp only [hurl]

theorem checkParams_ok_of (l : Values) (acc : Values)
    (h : ∀ p ∈ l, whitelisted (lowerStr p.1) = true ∧ p.2.length = 1) :
    checkParams l acc =
      .ok (l.foldl (fun a p => valuesSet (lowerStr p.1) (p.2.headD []) a) acc) := by
  induction l generalizing acc with
  | nil => rfl
  | cons p rest ih =>
    obtain ⟨k, vs⟩ := p
    have hp := h (k, vs) (by simp)
    simp only [checkParams]
    rw [if_neg (by simp [hp.1]), if_neg (by simp [hp.2])]
    exact ih _ (fun q hq => h q (by simp [hq]))

theorem checkParams_ok_inv (l : Values) (acc res : Values)
    (h : checkParams l acc = .ok res) :
    (∀ p ∈ l, whitelisted (lowerStr p.1) = true ∧ p.2.length = 1) ∧
    res = l.foldl (fun a p => valuesSet (lowerStr p.1) (p.2.headD []) a) acc := by
  induction l generalizing acc with
  | nil =>
    simp only [checkParams, Except.ok.injEq] at h
    exact ⟨by simp, by simp [h]⟩
  | cons p rest ih =>
    obtain ⟨k, vs⟩ := p
    simp only [checkParams] at h
    by_cases h1 : whitelisted (lowerStr k) = true
    · rw [if_neg (by simp [h1])] at h
      by_cases h2 : vs.length = 1
      · rw [if_neg (by simp [h2])] at h
        obtain ⟨hall, hres⟩ := ih _ h
        refine ⟨?_, by simpa using hres⟩
        intro q hq
        simp only [List.mem_cons] at hq
        rcases hq with hq | hq
        · subst hq; exact ⟨h1, h2⟩
        · exact hall q hq
      · rw [if_pos (by simp [h2])] at h
        exact absurd h (by simp)
    · rw [if_pos (by simpa using h1)] at h
      exact absurd h (by simp)

theorem checkParams_err_shape (l : Values) (acc : Values) (e : VerifyError)
    (h : checkParams l acc = .error e) : ∃ msg, e = .formatError msg := by
  induction l generalizing acc with
  | nil => simp [checkParams] at h
  | cons p rest ih =>
    obtain ⟨k, vs⟩ := p
    simp only [checkParams] at h
    by_cases h1 : whitelisted (lowerStr k) = true
    · rw [if_neg (by simp [h1])] at h
      by_cases h2 : vs.length = 1
      · rw [if_neg (by simp [h2])] at h
        exact ih _ h
      · rw [if_pos (by simp [h2])] at h
        simp only [Except.error.injEq] at h
        exact ⟨_, h.symm⟩
    · rw [if_pos (by simpa using h1)] at h
      simp only [Except.error.injEq] at h
      exact ⟨_, h.symm⟩

theorem verifyParsedURL_ok_inv (cfg : VerifierCfg) (u : GoURL) (ak : Str) (u2 : GoURL)
    (h : verifyParsedURL cfg u = .ok (ak, u2)) :
    u.scheme = ("https").data ∧ hostMatch u.host = true ∧ u.path = ("/").data ∧
    checkParams (parseQueryGo u.rawQuery).1 [] =
      .ok (lowerValues (parseQueryGo u.rawQuery).1) ∧
    valuesGet ("action").data (lowerValues (parseQueryGo u.rawQuery).1) =
      ("GetCallerIdentity").data ∧
    valuesGet ("clusterid").data (lowerValues (parseQueryGo u.rawQuery).1) =
      cfg.clusterID ∧
    ak = valuesGet ("accesskeyid").data (lowerValues (parseQueryGo u.rawQuery).1) ∧
    u2 = { u with host := cfg.stsEndpoint } := by
  unfold verifyParsedURL at h
  by_cases hsch : u.scheme = ("https").data
  · rw [if_neg (by simp [hsch])] at h
    by_cases hhost : hostMatch u.host = true
    · rw [if_neg (by simp [hhost])] at h
      simp only at h
      by_cases hpath : u.path = ("/").data
      · rw [if_neg (by simp [hpath])] at h
        cases hcp : checkParams (parseQueryGo u.rawQuery).1 [] with
        | error e => rw [hcp] at h; exact absurd h (by simp)
        | ok lower =>
          rw [hcp] at h
          obtain ⟨hall, hres⟩ := checkParams_ok_inv _ _ _ hcp
          have hlow : lower = lowerValues (parseQueryGo u.rawQuery).1 := hres
          subst hlow
          simp only at h
          by_cases hact : valuesGet ("action").data (lowerValues (parseQueryGo u.rawQuery).1) =
              ("GetCallerIdentity").data
          · rw [if_neg (by simp [hact])] at h
            by_cases hcid : valuesGet ("clusterid").data
                (lowerValues (parseQueryGo u.rawQuery).1) = cfg.clusterID
            · rw [if_neg (by simp [hcid])] at h
              simp only [Except.ok.injEq, Prod.mk.injEq] at h
              exact ⟨hsch, hhost, hpath, rfl, hact, hcid, h.1.symm, h.2.symm⟩
            · rw [if_pos (by simpa using hcid)] at h
              exact absurd h (by simp)
          · rw [if_pos (by simpa using hact)] at h
            exact absurd h (by simp)
      · rw [if_pos (by simpa using hpath)] at h
        exact absurd h (by simp)
    · rw [if_pos (by simpa using hhost)] at h
      exact absurd h (by simp)
  · rw [if_pos (by simpa using hsch)] at h
    exact absurd h (by simp)

theorem verifyParsedURL_shape (cfg : VerifierCfg) (u : GoURL) :
    (∃ ak u2, verifyParsedURL cfg u = .ok (ak, u2)) ∨
    (∃ msg, verifyParsedURL cfg u = .error (.formatError msg)) := by
  cases h : verifyParsedURL cfg u with
  | ok r => obtain ⟨a, u2⟩ := r; exact Or.inl ⟨a, u2, rfl⟩
  | error e =>
    right
    unfold verifyParsedURL at h
    by_cases hsch : u.scheme = ("https").data
    · rw [if_neg (by simp [hsch])] at h
      by_cases hhost : hostMatch u.host = true
      · rw [if_neg (by simp [hhost])] at h
        simp only at h
        by_cases hpath : u.path = ("/").data
        · rw [if_neg (by simp [hpath])] at h
          cases hcp : checkParams (parseQueryGo u.rawQuery).1 [] with
          | error e2 =>
            rw [hcp] at h
            simp only [Except.error.injEq] at h
            obtain ⟨msg, hmsg⟩ := checkParams_err_shape _ _ _ hcp
            exact ⟨msg, by rw [← h, hmsg]⟩
          | ok lower =>
            rw [hcp] at h
            simp only at h
            by_cases hact : valuesGet ("action").data lower = ("GetCallerIdentity").data
            · rw [if_neg (by simp [hact])] at h
              by_cases hcid : valuesGet ("clusterid").data lower = cfg.clusterID
              · rw [if_neg (by simp [hcid])] at h
                exact absurd h (by simp)
              · rw [if_pos (by simpa using hcid)] at h
                simp only [Except.error.injEq] at h
                exact ⟨_, by rw [h]⟩
            · rw [if_pos (by simpa using hact)] at h
              simp only [Except.error.injEq] at h
              exact ⟨_, by rw [h]⟩
        · rw [if_pos (by simpa using hpath)] at h
          simp only [Except.error.injEq] at h
          exact ⟨_, by rw [h]⟩
      · rw [if_pos (by simpa using hhost)] at h
        simp only [Except.error.injEq] at h
        exact ⟨_, by rw [h]⟩
    · rw [if_pos (by simpa using hsch)] at h
      simp only [Except.error.injEq] at h
      exact ⟨_, by rw [h]⟩

/-! ## Claim theorems: verifier -/

/-- C5: for a v1 token whose payload decodes and parses as an `https` URL,
a host failing the trusted pattern is rejected with a `FormatError` before
any request is built; and whenever validation succeeds, the request URL
carries the verifier's configured trusted STS endpoint as host, never the
token-supplied one. -/
theorem claim_c5_host_check_and_rewrite (cfg : VerifierCfg) (t : Str)
    (bytes : List Nat) (u : GoURL)
    (hv1 : tokenV1Head.isPrefixOf t) (hlen : goLen t ≤ 4096)
    (hdec : b64Decode (trimHead tokenV2Head (trimHead tokenV1Head t)) = some bytes)
    (hurl : urlParse (charsOf bytes) = some u)
    (hscheme : u.scheme = ("https").data) :
    (hostMatch u.host = false →
      verifyPre cfg t = .error (.formatError (("unexpected hostname ").data ++
        goQuote u.host ++ (" in pre-signed URL").data))) ∧
    (∀ ak u2, verifyPre cfg t = .ok (ak, u2) → u2.host = cfg.stsEndpoint) := by
  have hred := verifyPre_reaches cfg t bytes u hv1 hlen hdec hurl
  constructor
  · intro hbad
    rw [hred]
    unfold verifyParsedURL
    rw [if_neg (by simp [hscheme]), if_pos (by simp [hbad])]
  · intro ak u2 hok
    rw [hred] at hok
    have hinv := verifyParsedURL_ok_inv cfg u ak u2 hok
    rw [hinv.2.2.2.2.2.2.2]

/-- C5 witness: a spoofed host `sts.evil.aliyuncs.com.cn.attacker.tld` is
rejected with the hostname `FormatError`; an accepted
`sts.aliyuncs.com` token verifies and the produced request's host is the
configured trusted endpoint `sts.cn-test.aliyuncs.com`. -/
theorem claim_c5_host_check_and_rewrite_witness :
    verifyPre ⟨("c123").data, ("sts.cn-test.aliyuncs.com").data⟩
        (("k8s-ack-v1.aHR0cHM6Ly9zdHMuZXZpbC5hbGl5dW5jcy5jb20uY24uYXR0YWNrZXIudGxkLz9BY3Rpb249R2V0Q2FsbGVySWRlbnRpdHk=").data) =
      .error (.formatError (("unexpected hostname ").data ++
        goQuote (("sts.evil.aliyuncs.com.cn.attacker.tld").data) ++
        (" in pre-signed URL").data)) ∧
    verifyPre ⟨("c123").data, ("sts.cn-test.aliyuncs.com").data⟩
        (("k8s-ack-v1.aHR0cHM6Ly9zdHMuYWxpeXVuY3MuY29tLz9BY3Rpb249R2V0Q2FsbGVySWRlbnRpdHkmQ2x1c3RlcklkPWMxMjMmQWNjZXNzS2V5SWQ9YWs=").data) =
      .ok ((("ak").data),
        ⟨("https").data, ("sts.cn-test.aliyuncs.com").data, ("/").data,
         ("Action=GetCallerIdentity&ClusterId=c123&AccessKeyId=ak").data, false⟩) ∧
    (⟨("https").data, ("sts.cn-test.aliyuncs.com").data, ("/").data,
      ("Action=GetCallerIdentity&ClusterId=c123&AccessKeyId=ak").data, false⟩ : GoURL).host =
      (⟨("c123").data, ("sts.cn-test.aliyuncs.com").data⟩ : VerifierCfg).stsEndpoint := by
  have hok : verifyPre ⟨("c123").data, ("sts.cn-test.aliyuncs.com").data⟩
      (("k8s-ack-v1.aHR0cHM6Ly9zdHMuYWxpeXVuY3MuY29tLz9BY3Rpb249R2V0Q2FsbGVySWRlbnRpdHkmQ2x1c3RlcklkPWMxMjMmQWNjZXNzS2V5SWQ9YWs=").data) =
      .ok ((("ak").data),
        ⟨("https").data, ("sts.cn-test.aliyuncs.com").data, ("/").data,
         ("Action=GetCallerIdentity&ClusterId=c123&AccessKeyId=ak").data, false⟩) := by
    decide
  refine ⟨?_, hok, ?_⟩
  · exact (claim_c5_host_check_and_rewrite
      ⟨("c123").data, ("sts.cn-test.aliyuncs.com").data⟩
      (("k8s-ack-v1.aHR0cHM6Ly9zdHMuZXZpbC5hbGl5dW5jcy5jb20uY24uYXR0YWNrZXIudGxkLz9BY3Rpb249R2V0Q2FsbGVySWRlbnRpdHk=").data)
      (bytesOf (("https://sts.evil.aliyuncs.com.cn.attacker.tld/?Action=GetCallerIdentity").data))
      ⟨("https").data, ("sts.evil.aliyuncs.com.cn.attacker.tld").data, ("/").data,
       ("Action=GetCallerIdentity").data, false⟩
      (by decide) (by decide) (by decide) (by decide) (by decide)).1 (by decide)
  · exact (claim_c5_host_check_and_rewrite
      ⟨("c123").data, ("sts.cn-test.aliyuncs.com").data⟩
      (("k8s-ack-v1.aHR0cHM6Ly9zdHMuYWxpeXVuY3MuY29tLz9BY3Rpb249R2V0Q2FsbGVySWRlbnRpdHkmQ2x1c3RlcklkPWMxMjMmQWNjZXNzS2V5SWQ9YWs=").data)
      (bytesOf (("https://sts.aliyuncs.com/?Action=GetCallerIdentity&ClusterId=c123&AccessKeyId=ak").data))
      ⟨("https").data, ("sts.aliyuncs.com").data, ("/").data,
       ("Action=GetCallerIdentity&ClusterId=c123&AccessKeyId=ak").data, false⟩
      (by decide) (by decide) (by decide) (by decide) (by decide)).2 (("ak").data) _ hok

/-- C4: for a v1 token whose payload decodes and parses, `Verify` ends in a
`FormatError` (no identity, no replay) whenever the decoded query has a key
whose lower-cased form is off the allow-list, or a key with several values,
or an `Action` other than `GetCallerIdentity`, or a `ClusterId` differing
from the configured cluster id; and when everything else passes and only
the cluster id differs, the message is exactly
`unexpected clusterid <id> in token`. -/
theorem claim_c4_query_validation (cfg : VerifierCfg) (t : Str)
    (bytes : List Nat) (u : GoURL)
    (hv1 : tokenV1Head.isPrefixOf t)
    (hdec : b64Decode (trimHead tokenV2Head (trimHead tokenV1Head t)) = some bytes)
    (hurl : urlParse (charsOf bytes) = some u) :
    (((∃ p ∈ (parseQueryGo u.rawQuery).1, whitelisted (lowerStr p.1) = false) ∨
      (∃ p ∈ (parseQueryGo u.rawQuery).1, p.2.length ≠ 1) ∨
      valuesGet ("action").data (lowerValues (parseQueryGo u.rawQuery).1) ≠
        ("GetCallerIdentity").data ∨
      valuesGet ("clusterid").data (lowerValues (parseQueryGo u.rawQuery).1) ≠
        cfg.clusterID) →
      ∃ msg, verifyPre cfg t = .error (.formatError msg)) ∧
    (goLen t ≤ 4096 → u.scheme = ("https").data → hostMatch u.host = true →
     u.path = ("/").data →
     (∀ p ∈ (parseQueryGo u.rawQuery).1, whitelisted (lowerStr p.1) = true ∧
        p.2.length = 1) →
     valuesGet ("action").data (lowerValues (parseQueryGo u.rawQuery).1) =
       ("GetCallerIdentity").data →
     valuesGet ("clusterid").data (lowerValues (parseQueryGo u.rawQuery).1) ≠
       cfg.clusterID →
      verifyPre cfg t = .error (.formatError (("unexpected clusterid ").data ++
        valuesGet ("clusterid").data (lowerValues (parseQueryGo u.rawQuery).1) ++
        (" in token").data))) := by
  constructor
  · intro hbad
    by_cases hlen : goLen t ≤ 4096
    · rw [verifyPre_reaches cfg t bytes u hv1 hlen hdec hurl]
      rcases verifyParsedURL_shape cfg u with ⟨ak, u2, hok⟩ | ⟨msg, herr⟩
      · exfalso
        have hinv := verifyParsedURL_ok_inv cfg u ak u2 hok
        obtain ⟨hall, _⟩ := checkParams_ok_inv _ _ _ hinv.2.2.2.1
        rcases hbad with ⟨p, hp, hw⟩ | ⟨p, hp, hl⟩ | hact | hcid
        · rw [(hall p hp).1] at hw
          exact absurd hw (by simp)
        · exact hl (hall p hp).2
        · exact hact hinv.2.2.2.2.1
        · exact hcid hinv.2.2.2.2.2.1
      · exact ⟨msg, herr⟩
    · refine ⟨("token is too large").data, ?_⟩
      unfold verifyPre
      rw [if_pos (by omega)]
  · intro hlen hsch hhost hpath hall hact hcid
    rw [verifyPre_reaches cfg t bytes u hv1 hlen hdec hurl]
    unfold verifyParsedURL
    rw [if_neg (by simp [hsch]), if_neg (by simp [hhost])]
    have hcp : checkParams (parseQueryGo u.rawQuery).1 [] =
        .ok (lowerValues (parseQueryGo u.rawQuery).1) := checkParams_ok_of _ _ hall
    simp only
    rw [if_neg (by simp [hpath]), hcp]
    simp only
    rw [if_neg (by simp [hact]), if_pos (by simpa using hcid)]

/-- C4 witness: a token with an extra `Attack=1` parameter gives a
`FormatError`, and a token generated for cluster `c123` verified against
cluster `c999` fails with exactly `unexpected clusterid c123 in token`. -/
theorem claim_c4_query_validation_witness :
    (∃ msg, verifyPre ⟨("c123").data, ("sts.cn-test.aliyuncs.com").data⟩
        (("k8s-ack-v1.aHR0cHM6Ly9zdHMuYWxpeXVuY3MuY29tLz9BY3Rpb249R2V0Q2FsbGVySWRlbnRpdHkmQ2x1c3RlcklkPWMxMjMmQXR0YWNrPTE=").data) =
      .error (.formatError msg)) ∧
    verifyPre ⟨("c999").data, ("sts.cn-test.aliyuncs.com").data⟩
        (("k8s-ack-v1.aHR0cHM6Ly9zdHMuYWxpeXVuY3MuY29tLz9BY3Rpb249R2V0Q2FsbGVySWRlbnRpdHkmQ2x1c3RlcklkPWMxMjMmQWNjZXNzS2V5SWQ9YWs=").data) =
      .error (.formatError (("unexpected clusterid c123 in token").data)) := by
  constructor
  · exact (claim_c4_query_validation
      ⟨("c123").data, ("sts.cn-test.aliyuncs.com").data⟩
      (("k8s-ack-v1.aHR0cHM6Ly9zdHMuYWxpeXVuY3MuY29tLz9BY3Rpb249R2V0Q2FsbGVySWRlbnRpdHkmQ2x1c3RlcklkPWMxMjMmQXR0YWNrPTE=").data)
      (bytesOf (("https://sts.aliyuncs.com/?Action=GetCallerIdentity&ClusterId=c123&Attack=1").data))
      ⟨("https").data, ("sts.aliyuncs.com").data, ("/").data,
       ("Action=GetCallerIdentity&ClusterId=c123&Attack=1").data, false⟩
      (by decide) (by decide) (by decide)).1
      (Or.inl ⟨((("Attack").data, [("1").data]) : Str × List Str), by decide, by decide⟩)
  · have h := (claim_c4_query_validation
      ⟨("c999").data, ("sts.cn-test.aliyuncs.com").data⟩
      (("k8s-ack-v1.aHR0cHM6Ly9zdHMuYWxpeXVuY3MuY29tLz9BY3Rpb249R2V0Q2FsbGVySWRlbnRpdHkmQ2x1c3RlcklkPWMxMjMmQWNjZXNzS2V5SWQ9YWs=").data)
      (bytesOf (("https://sts.aliyuncs.com/?Action=GetCallerIdentity&ClusterId=c123&AccessKeyId=ak").data))
      ⟨("https").data, ("sts.aliyuncs.com").data, ("/").data,
       ("Action=GetCallerIdentity&ClusterId=c123&AccessKeyId=ak").data, false⟩
      (by decide) (by decide) (by decide)).2
      (by decide) (by decide) (by decide) (by decide) (by decide) (by decide) (by decide)
    rw [h]
    decide

/-! ## Helper lemmas for the generator claims -/

theorem isPrefixOf_append (p s : Str) : p.isPrefixOf (p ++ s) = true :=
  List.isPrefixOf_iff_prefix.mpr (List.prefix_append p s)

theorem trimHead_append (p s : Str) : trimHead p (p ++ s) = s := by
  unfold trimHead
  rw [if_pos (isPrefixOf_append p s), List.drop_left]

theorem trimHead_no (p s : Str) (h : ¬p.isPrefixOf s = true) : trimHead p s = s := by
  unfold trimHead
  rw [if_neg h]

theorem charsOf_bytesOf (s : Str) : charsOf (bytesOf s) = s := by
  simp [charsOf, bytesOf, List.map_map, Function.comp_def, Char.ofNat_toNat]

theorem bytesOf_lt (s : Str) (h : ∀ c ∈ s, c.toNat < 256) : ∀ b ∈ bytesOf s, b < 256 := by
  intro b hb
  simp only [bytesOf, List.mem_map] at hb
  obtain ⟨c, hc, rfl⟩ := hb
  exact h c hc

theorem goLen_eq_length (s : Str) (h : ∀ c ∈ s, c.toNat < 128) : goLen s = s.length := by
  induction s with
  | nil => rfl
  | cons c rest ih =>
    have hc : charUtf8Len c = 1 := by
      unfold charUtf8Len
      rw [if_pos (h c (by simp))]
    show charUtf8Len c + goLen rest = rest.length + 1
    rw [hc, ih (fun x hx => h x (by simp [hx]))]
    omega

theorem queryEscape_length_le (s : Str) : (queryEscape s).length ≤ 3 * s.length := by
  induction s with
  | nil => simp [queryEscape]
  | cons c rest ih =>
    have hstep : queryEscape (c :: rest) = queryEscapeChar c ++ queryEscape rest := rfl
    have hc : (queryEscapeChar c).length ≤ 3 := by
      unfold queryEscapeChar
      by_cases h1 : isUnreserved c
      · simp [h1]
      · by_cases h2 : c = ' '
        · rw [if_neg h1, if_pos h2]
          decide
        · rw [if_neg h1, if_neg h2]
          simp
    rw [hstep]
    simp only [List.length_append, List.length_cons]
    omega

theorem splitOnChar_no_sep (sep : Char) (s : Str) (h : ∀ c ∈ s, c ≠ sep) :
    splitOnChar sep s = [s] := by
  induction s with
  | nil => rfl
  | cons c rest ih =>
    rw [splitOnChar_cons, if_neg (h c (by simp)),
      ih (fun x hx => h x (by simp [hx]))]
    rfl

theorem joinPairsRaw_append_single (pairs : List (Str × Str)) (k v : Str)
    (h : pairs ≠ []) :
    joinPairsRaw (pairs ++ [(k, v)]) = joinPairsRaw pairs ++ '&' :: (k ++ '=' :: v) := by
  induction pairs with
  | nil => exact absurd rfl h
  | cons p rest ih =>
    obtain ⟨k2, v2⟩ := p
    cases rest with
    | nil => simp [joinPairsRaw]
    | cons q t =>
      rw [List.cons_append, joinPairs_cons k2 v2 ((q :: t) ++ [(k, v)]) (by simp),
        joinPairs_cons k2 v2 (q :: t) (by simp), ih (by simp)]
      simp

theorem valuesSet_not_mem (k v : Str) (m : Values) (h : ∀ e ∈ m, e.1 ≠ k) :
    valuesSet k v m = m ++ [(k, [v])] := by
  induction m with
  | nil => rfl
  | cons e rest ih =>
    obtain ⟨k2, vs⟩ := e
    rw [valuesSet, if_neg (h (k2, vs) (by simp)), ih (fun d hd => h d (by simp [hd]))]
    rfl

theorem foldSet_eq_map (pairs : Values) (m : Values)
    (hnd : (pairs.map (fun p => lowerStr p.1)).Nodup)
    (hdis : ∀ e ∈ m, ∀ p ∈ pairs, e.1 ≠ lowerStr p.1) :
    pairs.foldl (fun a p => valuesSet (lowerStr p.1) (p.2.headD []) a) m =
      m ++ pairs.map (fun p => (lowerStr p.1, [p.2.headD []])) := by
  induction pairs generalizing m with
  | nil => simp
  | cons p rest ih =>
    rw [List.foldl_cons,
      valuesSet_not_mem (lowerStr p.1) (p.2.headD []) m
        (fun e he => hdis e he p (by simp)),
      ih (m ++ [(lowerStr p.1, [p.2.headD []])])]
    · simp
    · simp only [List.map_cons, List.nodup_cons] at hnd
      exact hnd.2
    · intro e he q hq
      rw [List.mem_append] at he
      rcases he with he | he
      · exact hdis e he q (by simp [hq])
      · simp only [List.mem_singleton] at he
        subst he
        simp only [List.map_cons, List.nodup_cons] at hnd
        intro hpq
        simp only at hpq
        refine hnd.1 ?_
        rw [hpq]
        exact List.mem_map_of_mem (fun p => lowerStr p.1) hq

/-- Parsing the standard generator URL shape
`https://sts.aliyuncs.com/?<query>` for a nonempty query free of control
characters, `#` and `?`. -/
theorem urlParse_std (q : Str)
    (hq : ∀ c ∈ q, ¬isCtl c = true ∧ c ≠ '#' ∧ c ≠ '?') (hne : q ≠ []) :
    urlParse (("https://sts.aliyuncs.com/").data ++ '?' :: q) =
      some ⟨("https").data, ("sts.aliyuncs.com").data, ("/").data, q, false⟩ := by
  have hlit : ∀ c ∈ ("https://sts.aliyuncs.com/").data, ¬isCtl c = true ∧ c ≠ '#' := by
    decide
  have hany : ((("https://sts.aliyuncs.com/").data ++ '?' :: q).any isCtl) = false := by
    rw [List.any_eq_false]
    intro c hc
    rw [List.mem_append] at hc
    rcases hc with hc | hc
    · exact (hlit c hc).1
    · simp only [List.mem_cons] at hc
      rcases hc with rfl | hc
      · decide
      · exact (hq c hc).1
  have hhash : splitFirst '#' (("https://sts.aliyuncs.com/").data ++ '?' :: q) =
      (("https://sts.aliyuncs.com/").data ++ '?' :: q, none) := by
    apply splitFirst_no_sep
    intro c hc
    rw [List.mem_append] at hc
    rcases hc with hc | hc
    · exact (hlit c hc).2
    · simp only [List.mem_cons] at hc
      rcases hc with rfl | hc
      · decide
      · exact (hq c hc).2.1
  have hsch : getScheme (("https://sts.aliyuncs.com/").data ++ '?' :: q) =
      some (("https").data, ("//sts.aliyuncs.com/").data ++ '?' :: q) := rfl
  have hlast : (("//sts.aliyuncs.com/").data ++ '?' :: q).getLast? ≠ some '?' := by
    rw [show ("//sts.aliyuncs.com/").data ++ '?' :: q =
        (("//sts.aliyuncs.com/").data ++ ['?']) ++ q by simp,
      List.getLast?_append_of_ne_nil _ hne]
    intro hgl
    exact absurd rfl (hq '?' (List.mem_of_mem_getLast? hgl)).2.2
  have hsplitq : splitFirst '?' (("//sts.aliyuncs.com/").data ++ '?' :: q) =
      (("//sts.aliyuncs.com/").data, some q) := rfl
  unfold urlParse
  rw [if_neg (show ¬(("https://sts.aliyuncs.com/").data ++ '?' :: q).any isCtl = true from
    by rw [hany]; simp)]
  simp only [hhash, hsch]
  rw [if_neg (by simp)]
  have hcond : ¬((("//sts.aliyuncs.com/").data ++ '?' :: q).getLast? = some '?' ∧
      ¬(("//sts.aliyuncs.com/").data ++ '?' :: q).dropLast.contains '?' = true) :=
    fun hand => hlast hand.1
  simp only [if_neg hcond, hsplitq]
  rw [if_neg (by decide), if_neg (by decide), if_pos (by decide)]
  rfl

theorem isUnreserved_toNat {c : Char} (h : isUnreserved c = true) :
    45 ≤ c.toNat ∧ c.toNat ≤ 126 := by
  simp only [isUnreserved, decide_eq_true_eq, Bool.or_eq_true, decide_eq_true_eq] at h
  rcases h with h | h | h | h | h | h | h
  · omega
  · omega
  · omega
  · subst h; decide
  · subst h; decide
  · subst h; decide
  · subst h; decide

theorem escOut_toNat {c : Char} (h : escOut c) : 37 ≤ c.toNat ∧ c.toNat ≤ 126 := by
  rcases h with h | h | h | h | h
  · have := isUnreserved_toNat h
    omega
  · subst h; decide
  · subst h; decide
  · omega
  · omega

theorem char_ne_of_toNat_ne {c d : Char} (h : c.toNat ≠ d.toNat) : c ≠ d :=
  fun he => h (he ▸ rfl)

theorem escOut_qsafe {c : Char} (h : escOut c) :
    ¬isCtl c = true ∧ c ≠ '#' ∧ c ≠ '?' := by
  obtain ⟨hlo, hhi⟩ := escOut_toNat h
  refine ⟨?_, ?_, (escOut_not_special h).2.2.2.1⟩
  · simp only [isCtl, decide_eq_true_eq, Bool.or_eq_true, decide_eq_true_eq]
    intro hc
    rcases hc with hc | hc <;> omega
  · exact char_ne_of_toNat_ne (by intro he; rw [he] at hlo; revert hlo; decide)

theorem isUnreserved_qsafe {c : Char} (h : isUnreserved c = true) :
    ¬isCtl c = true ∧ c ≠ '#' ∧ c ≠ '?' :=
  escOut_qsafe (Or.inl h)

/-- Model strings whose characters all stand for single bytes. -/
def byteStr (s : Str) : Prop := ∀ c ∈ s, c.toNat < 256

instance byteStr.dec (s : Str) : Decidable (byteStr s) :=
  inferInstanceAs (Decidable (∀ c ∈ s, c.toNat < 256))

/-- Strings of unreserved characters: inserted raw into the query string
and recovered verbatim by query parsing. -/
def benign (s : Str) : Prop := ∀ c ∈ s, isUnreserved c = true

theorem benign_goodVal {s : Str} (h : benign s) : goodVal s := by
  refine ⟨fun c hc => ?_, ?_⟩
  · obtain ⟨_, _, h3, h4, _⟩ := isUnreserved_spec (h c hc)
    simp [isSep, h3, h4]
  · rw [queryUnescape_id s (fun c hc =>
      ⟨(isUnreserved_spec (h c hc)).1, (isUnreserved_spec (h c hc)).2.1⟩)]
    rfl

theorem benign_unescape {s : Str} (h : benign s) : queryUnescape s = some s :=
  queryUnescape_id s (fun c hc =>
    ⟨(isUnreserved_spec (h c hc)).1, (isUnreserved_spec (h c hc)).2.1⟩)

theorem escape_goodVal (s : Str) (h : byteStr s) : goodVal (queryEscape s) := by
  refine ⟨fun c hc => ?_, ?_⟩
  · obtain ⟨h1, h2, _⟩ := escOut_not_special (queryEscape_chars s c hc)
    simp [isSep, h1, h2]
  · rw [queryUnescape_queryEscape s h]
    rfl

/-- The query parameters `GetWithSTS` concatenates, in source order. -/
def genPairs (accessKey clusterID securityToken timestamp nonce : Str) :
    List (Str × Str) :=
  [(("SignatureVersion").data, ("1.0").data),
   (("Format").data, ("JSON").data),
   (("Timestamp").data, queryEscape timestamp),
   (("AccessKeyId").data, accessKey),
   (("SignatureMethod").data, ("HMAC-SHA1").data),
   (("Version").data, ("2015-04-01").data),
   (("SignatureNonce").data, nonce),
   (("Action").data, ("GetCallerIdentity").data),
   (("ClusterId").data, clusterID)]
  ++ (if securityToken = [] then []
      else [(("SecurityToken").data, queryEscape securityToken)])

theorem buildQueryStr_eq (accessKey clusterID securityToken timestamp nonce : Str) :
    buildQueryStr accessKey clusterID securityToken timestamp nonce =
      joinPairsRaw (genPairs accessKey clusterID securityToken timestamp nonce) := by
  have e1 : ("SignatureVersion=1.0").data =
      ("SignatureVersion").data ++ '=' :: ("1.0").data := by decide
  have e2 : ("&Format=JSON").data =
      '&' :: (("Format").data ++ '=' :: ("JSON").data) := by decide
  have e3 : ("&Timestamp=").data = '&' :: (("Timestamp").data ++ ['=']) := by decide
  have e4 : ("&AccessKeyId=").data = '&' :: (("AccessKeyId").data ++ ['=']) := by decide
  have e5 : ("&SignatureMethod=HMAC-SHA1").data =
      '&' :: (("SignatureMethod").data ++ '=' :: ("HMAC-SHA1").data) := by decide
  have e6 : ("&Version=2015-04-01").data =
      '&' :: (("Version").data ++ '=' :: ("2015-04-01").data) := by decide
  have e7 : ("&SignatureNonce=").data =
      '&' :: (("SignatureNonce").data ++ ['=']) := by decide
  have e8 : ("&Action=GetCallerIdentity").data =
      '&' :: (("Action").data ++ '=' :: ("GetCallerIdentity").data) := by decide
  have e9 : ("&ClusterId=").data = '&' :: (("ClusterId").data ++ ['=']) := by decide
  have e10 : ("&SecurityToken=").data =
      '&' :: (("SecurityToken").data ++ ['=']) := by decide
  by_cases hst : securityToken = []
  · subst hst
    unfold buildQueryStr genPairs
    rw [if_pos rfl, if_pos rfl, e1, e2, e3, e4, e5, e6, e7, e8, e9]
    simp [joinPairsRaw, List.append_assoc]
  · unfold buildQueryStr genPairs
    rw [if_neg hst, if_neg hst, e1, e2, e3, e4, e5, e6, e7, e8, e9, e10]
    simp [joinPairsRaw, List.append_assoc]

theorem joinPairsRaw_bytes (pairs : List (Str × Str))
    (h : ∀ p ∈ pairs, (∀ c ∈ p.1, c.toNat < 256) ∧ (∀ c ∈ p.2, c.toNat < 256)) :
    ∀ c ∈ joinPairsRaw pairs, c.toNat < 256 := by
  induction pairs with
  | nil => intro c hc; simp [joinPairsRaw] at hc
  | cons p rest ih =>
    intro c hc
    obtain ⟨k, v⟩ := p
    cases rest with
    | nil =>
      simp only [joinPairsRaw, List.mem_append, List.mem_cons] at hc
      rcases hc with hc | hc | hc
      · exact (h (k, v) (by simp)).1 c hc
      · subst hc; decide
      · exact (h (k, v) (by simp)).2 c hc
    | cons q t =>
      rw [joinPairs_cons k v (q :: t) (by simp)] at hc
      simp only [List.mem_append, List.mem_cons] at hc
      rcases hc with (hc | hc | hc) | hc | hc
      · exact (h (k, v) (by simp)).1 c hc
      · subst hc; decide
      · exact (h (k, v) (by simp)).2 c hc
      · subst hc; decide
      · exact ih (fun d hd => h d (by simp [hd])) c hc

theorem queryEscape_bytes (s : Str) : ∀ c ∈ queryEscape s, c.toNat < 256 := by
  intro c hc
  have := (escOut_toNat (queryEscape_chars s c hc)).2
  omega

theorem genPairs_bytes (ak cid st ts n : Str)
    (hak : byteStr ak) (hcid : byteStr cid) (hn : byteStr n) :
    ∀ p ∈ genPairs ak cid st ts n,
      (∀ c ∈ p.1, c.toNat < 256) ∧ (∀ c ∈ p.2, c.toNat < 256) := by
  intro p hp
  unfold genPairs at hp
  rw [List.mem_append] at hp
  rcases hp with hp | hp
  · simp only [List.mem_cons, List.not_mem_nil, or_false] at hp
    rcases hp with rfl | rfl | rfl | rfl | rfl | rfl | rfl | rfl | rfl
    · exact ⟨by decide, by decide⟩
    · exact ⟨by decide, by decide⟩
    · exact ⟨show ∀ c ∈ ("Timestamp").data, c.toNat < 256 by decide, queryEscape_bytes ts⟩
    · exact ⟨show ∀ c ∈ ("AccessKeyId").data, c.toNat < 256 by decide, hak⟩
    · exact ⟨by decide, by decide⟩
    · exact ⟨by decide, by decide⟩
    · exact ⟨show ∀ c ∈ ("SignatureNonce").data, c.toNat < 256 by decide, hn⟩
    · exact ⟨by decide, by decide⟩
    · exact ⟨show ∀ c ∈ ("ClusterId").data, c.toNat < 256 by decide, hcid⟩
  · by_cases hst : st = []
    · rw [if_pos hst] at hp
      simp at hp
    · rw [if_neg hst] at hp
      simp only [List.mem_singleton] at hp
      subst hp
      exact ⟨show ∀ c ∈ ("SecurityToken").data, c.toNat < 256 by decide, queryEscape_bytes st⟩

theorem stsHost_quer (r : Str) :
    stsHostStr ++ '?' :: r = ("https://sts.aliyuncs.com/?").data ++ r := rfl

/-- C6: a successful `GetWithSTS` run returns expiration = now + 14 minutes
(15-minute presigned validity minus a one-minute margin) and a token that is
the v1 tag followed by the standard base64 encoding of the presigned
HTTPS `GetCallerIdentity` URL; decoding the payload recovers that URL. -/
theorem claim_c6_expiration_and_encoding
    (clusterID accessKey accessSecret securityToken timestamp nonce : Str) (now : Nat)
    (hq : (parseQueryGo (buildQueryStr accessKey clusterID securityToken timestamp nonce)).2
      = false)
    (hak : byteStr accessKey) (hcid : byteStr clusterID) (hn : byteStr nonce) :
    ∃ url : Str,
      getWithSTS clusterID accessKey accessSecret securityToken timestamp nonce now =
        .ok ⟨tokenV1Head ++ b64EncodeBytes (bytesOf url), now + 840⟩ ∧
      ("https://sts.aliyuncs.com/?").data.isPrefixOf url = true ∧
      b64Decode (trimHead tokenV1Head (tokenV1Head ++ b64EncodeBytes (bytesOf url))) =
        some (bytesOf url) := by
  refine ⟨stsHostStr ++ '?' ::
      (buildQueryStr accessKey clusterID securityToken timestamp nonce ++
        ("&Signature=").data ++
        queryEscape (b64EncodeBytes (hmacSha1 (bytesOf accessSecret ++ [38])
          (bytesOf (("GET&%2F&").data ++ queryEscape (valuesEncode
            (parseQueryGo
              (buildQueryStr accessKey clusterID securityToken timestamp nonce)).1)))))),
    ?_, ?_, ?_⟩
  · simp only [getWithSTS, hq, Bool.false_eq_true, if_false]
  · rw [stsHost_quer]
    exact isPrefixOf_append _ _
  · rw [trimHead_append]
    apply b64_roundtrip
    apply bytesOf_lt
    intro c hc
    rw [stsHost_quer, List.mem_append] at hc
    rcases hc with hc | hc
    · have hlit : ∀ c ∈ ("https://sts.aliyuncs.com/?").data, c.toNat < 256 := by decide
      exact hlit c hc
    · rw [List.append_assoc, List.mem_append] at hc
      rcases hc with hc | hc
      · rw [buildQueryStr_eq] at hc
        exact joinPairsRaw_bytes _
          (genPairs_bytes accessKey clusterID securityToken timestamp nonce hak hcid hn)
          c hc
      · rw [List.mem_append] at hc
        rcases hc with hc | hc
        · have hlit : ∀ c ∈ ("&Signature=").data, c.toNat < 256 := by decide
          exact hlit c hc
        · exact queryEscape_bytes _ c hc

/-- C6 witness: the claim evaluated at concrete credentials. -/
theorem claim_c6_expiration_and_encoding_witness :
    ∃ url : Str,
      getWithSTS (("c1").data) (("ak").data) (("sec").data) []
          (("2020-01-01T00:00:00Z").data) (("n0").data) 7 =
        .ok ⟨tokenV1Head ++ b64EncodeBytes (bytesOf url), 7 + 840⟩ ∧
      ("https://sts.aliyuncs.com/?").data.isPrefixOf url = true ∧
      b64Decode (trimHead tokenV1Head (tokenV1Head ++ b64EncodeBytes (bytesOf url))) =
        some (bytesOf url) :=
  claim_c6_expiration_and_encoding (("c1").data) (("ak").data) (("sec").data) []
    (("2020-01-01T00:00:00Z").data) (("n0").data) 7
    (by decide) (by decide) (by decide) (by decide)

theorem benign_byteStr {s : Str} (h : benign s) : byteStr s := by
  intro c hc
  have := (isUnreserved_toNat (h c hc)).2
  omega

instance benign.dec (s : Str) : Decidable (benign s) :=
  inferInstanceAs (Decidable (∀ c ∈ s, isUnreserved c = true))

theorem v2_not_prefix_enc (r : Str) :
    tokenV2Head.isPrefixOf (b64EncodeBytes (bytesOf (stsHostStr ++ r))) = false := rfl

/-- Token length bound: for query strings of at most 3000 byte characters the
emitted v1 token stays within the verifier 4096-byte limit. -/
theorem tokenURL_goLen (q : Str) (hlen : q.length ≤ 3000) :
    goLen (tokenV1Head ++ b64EncodeBytes (bytesOf (stsHostStr ++ '?' :: q))) ≤ 4096 := by
  have hascii : ∀ c ∈ tokenV1Head ++ b64EncodeBytes (bytesOf (stsHostStr ++ '?' :: q)),
      c.toNat < 128 := by
    intro c hc
    rw [List.mem_append] at hc
    rcases hc with hc | hc
    · exact (show ∀ c ∈ tokenV1Head, c.toNat < 128 by decide) c hc
    · exact b64Encode_ascii _ c hc
  rw [goLen_eq_length _ hascii, List.length_append, b64Encode_length]
  have h1 : (bytesOf (stsHostStr ++ '?' :: q)).length = 26 + q.length := by
    rw [stsHost_quer, bytesOf, List.length_map, List.length_append]
    have : (("https://sts.aliyuncs.com/?").data).length = 26 := by decide
    omega
  have h2 : tokenV1Head.length = 11 := by decide
  rw [h1, h2]
  omega

/-- Emitting any sufficiently short presigned query `q` and verifying the
resulting v1 token reaches the URL-validation chain with the standard parsed
URL. -/
theorem verifyPre_gen (cfg : VerifierCfg) (q : Str)
    (hbytes : ∀ c ∈ q, c.toNat < 256)
    (hqsafe : ∀ c ∈ q, ¬isCtl c = true ∧ c ≠ '#' ∧ c ≠ '?')
    (hne : q ≠ []) (hlen : q.length ≤ 3000) :
    verifyPre cfg (tokenV1Head ++ b64EncodeBytes (bytesOf (stsHostStr ++ '?' :: q))) =
      verifyParsedURL cfg
        ⟨("https").data, ("sts.aliyuncs.com").data, ("/").data, q, false⟩ := by
  have hub : ∀ c ∈ stsHostStr ++ '?' :: q, c.toNat < 256 := by
    intro c hc
    rw [stsHost_quer, List.mem_append] at hc
    rcases hc with hc | hc
    · exact (show ∀ c ∈ ("https://sts.aliyuncs.com/?").data, c.toNat < 256 by decide) c hc
    · exact hbytes c hc
  refine verifyPre_reaches cfg _ (bytesOf (stsHostStr ++ '?' :: q)) _
    (isPrefixOf_append _ _) (tokenURL_goLen q hlen) ?_ ?_
  · rw [trimHead_append, trimHead_no _ _ (by rw [v2_not_prefix_enc]; simp)]
    exact b64_roundtrip _ (bytesOf_lt _ hub)
  · rw [charsOf_bytesOf,
      show stsHostStr ++ '?' :: q = ("https://sts.aliyuncs.com/").data ++ '?' :: q from rfl]
    exact urlParse_std q hqsafe hne

theorem joinPairsRaw_pred (P : Char → Prop) (hamp : P '&') (heqc : P '=')
    (pairs : List (Str × Str))
    (h : ∀ p ∈ pairs, (∀ c ∈ p.1, P c) ∧ (∀ c ∈ p.2, P c)) :
    ∀ c ∈ joinPairsRaw pairs, P c := by
  induction pairs with
  | nil => intro c hc; simp [joinPairsRaw] at hc
  | cons p rest ih =>
    intro c hc
    obtain ⟨k, v⟩ := p
    cases rest with
    | nil =>
      simp only [joinPairsRaw, List.mem_append, List.mem_cons] at hc
      rcases hc with hc | hc | hc
      · exact (h (k, v) (by simp)).1 c hc
      · subst hc; exact heqc
      · exact (h (k, v) (by simp)).2 c hc
    | cons q t =>
      rw [joinPairs_cons k v (q :: t) (by simp)] at hc
      simp only [List.mem_append, List.mem_cons] at hc
      rcases hc with (hc | hc | hc) | hc | hc
      · exact (h (k, v) (by simp)).1 c hc
      · subst hc; exact heqc
      · exact (h (k, v) (by simp)).2 c hc
      · subst hc; exact hamp
      · exact ih (fun d hd => h d (by simp [hd])) c hc

theorem queryEscape_qsafe (s : Str) :
    ∀ c ∈ queryEscape s, ¬isCtl c = true ∧ c ≠ '#' ∧ c ≠ '?' :=
  fun c hc => escOut_qsafe (queryEscape_chars s c hc)

theorem benign_qsafe {s : Str} (h : benign s) :
    ∀ c ∈ s, ¬isCtl c = true ∧ c ≠ '#' ∧ c ≠ '?' :=
  fun c hc => isUnreserved_qsafe (h c hc)

theorem genPairs_qsafe (ak cid st ts n : Str)
    (hak : benign ak) (hcid : benign cid) (hn : benign n) :
    ∀ p ∈ genPairs ak cid st ts n,
      (∀ c ∈ p.1, ¬isCtl c = true ∧ c ≠ '#' ∧ c ≠ '?') ∧
      (∀ c ∈ p.2, ¬isCtl c = true ∧ c ≠ '#' ∧ c ≠ '?') := by
  intro p hp
  unfold genPairs at hp
  rw [List.mem_append] at hp
  rcases hp with hp | hp
  · simp only [List.mem_cons, List.not_mem_nil, or_false] at hp
    rcases hp with rfl | rfl | rfl | rfl | rfl | rfl | rfl | rfl | rfl
    · exact ⟨by decide, by decide⟩
    · exact ⟨by decide, by decide⟩
    · exact ⟨show ∀ c ∈ ("Timestamp").data, ¬isCtl c = true ∧ c ≠ '#' ∧ c ≠ '?' by decide,
        queryEscape_qsafe ts⟩
    · exact ⟨show ∀ c ∈ ("AccessKeyId").data, ¬isCtl c = true ∧ c ≠ '#' ∧ c ≠ '?' by decide,
        benign_qsafe hak⟩
    · exact ⟨by decide, by decide⟩
    · exact ⟨by decide, by decide⟩
    · exact ⟨show ∀ c ∈ ("SignatureNonce").data, ¬isCtl c = true ∧ c ≠ '#' ∧ c ≠ '?' by decide,
        benign_qsafe hn⟩
    · exact ⟨by decide, by decide⟩
    · exact ⟨show ∀ c ∈ ("ClusterId").data, ¬isCtl c = true ∧ c ≠ '#' ∧ c ≠ '?' by decide,
        benign_qsafe hcid⟩
  · by_cases hst : st = []
    · rw [if_pos hst] at hp
      simp at hp
    · rw [if_neg hst] at hp
      simp only [List.mem_singleton] at hp
      subst hp
      exact ⟨show ∀ c ∈ ("SecurityToken").data, ¬isCtl c = true ∧ c ≠ '#' ∧ c ≠ '?' by decide,
        queryEscape_qsafe st⟩

theorem genPairs_good (ak cid st ts n : Str)
    (hak : benign ak) (hcid : benign cid) (hn : benign n)
    (hts : byteStr ts) (hst : byteStr st) :
    ∀ p ∈ genPairs ak cid st ts n, goodKey p.1 ∧ goodVal p.2 := by
  intro p hp
  unfold genPairs at hp
  rw [List.mem_append] at hp
  rcases hp with hp | hp
  · simp only [List.mem_cons, List.not_mem_nil, or_false] at hp
    rcases hp with rfl | rfl | rfl | rfl | rfl | rfl | rfl | rfl | rfl
    · exact ⟨by decide, by decide⟩
    · exact ⟨by decide, by decide⟩
    · exact ⟨show goodKey (("Timestamp").data) by decide, escape_goodVal ts hts⟩
    · exact ⟨show goodKey (("AccessKeyId").data) by decide, benign_goodVal hak⟩
    · exact ⟨by decide, by decide⟩
    · exact ⟨by decide, by decide⟩
    · exact ⟨show goodKey (("SignatureNonce").data) by decide, benign_goodVal hn⟩
    · exact ⟨by decide, by decide⟩
    · exact ⟨show goodKey (("ClusterId").data) by decide, benign_goodVal hcid⟩
  · by_cases hst0 : st = []
    · rw [if_pos hst0] at hp
      simp at hp
    · rw [if_neg hst0] at hp
      simp only [List.mem_singleton] at hp
      subst hp
      exact ⟨show goodKey (("SecurityToken").data) by decide, escape_goodVal st hst⟩

theorem genPairs_ne_nil (ak cid st ts n : Str) : genPairs ak cid st ts n ≠ [] := by
  unfold genPairs
  simp

/-- The full raw query emitted by `GetWithSTS` (parameters plus the trailing
`Signature`) in serialized-pairs form. -/
theorem gen_rawq (ak cid st ts n sig : Str) :
    buildQueryStr ak cid st ts n ++ ("&Signature=").data ++ queryEscape sig =
      joinPairsRaw (genPairs ak cid st ts n ++ [(("Signature").data, queryEscape sig)]) := by
  rw [buildQueryStr_eq,
    joinPairsRaw_append_single _ _ _ (genPairs_ne_nil ak cid st ts n)]
  have e : ("&Signature=").data = '&' :: (("Signature").data ++ ['=']) := by decide
  rw [List.append_assoc, e]
  simp [List.append_assoc]

/-- The `url.Values` map that query parsing recovers from the generated raw
query (derived form used to state the round-trip). -/
def genParsed (ak cid st ts n sig : Str) : Values :=
  [(("SignatureVersion").data, [("1.0").data]),
   (("Format").data, [("JSON").data]),
   (("Timestamp").data, [ts]),
   (("AccessKeyId").data, [ak]),
   (("SignatureMethod").data, [("HMAC-SHA1").data]),
   (("Version").data, [("2015-04-01").data]),
   (("SignatureNonce").data, [n]),
   (("Action").data, [("GetCallerIdentity").data]),
   (("ClusterId").data, [cid])]
  ++ (if st = [] then [] else [(("SecurityToken").data, [st])])
  ++ [(("Signature").data, [sig])]

theorem gen_parseQuery (ak cid st ts n sig : Str)
    (hak : benign ak) (hcid : benign cid) (hn : benign n)
    (hts : byteStr ts) (hst : byteStr st) (hsig : byteStr sig) :
    parseQueryGo
      (joinPairsRaw (genPairs ak cid st ts n ++ [(("Signature").data, queryEscape sig)])) =
      (genParsed ak cid st ts n sig, false) := by
  have hgood := genPairs_good ak cid st ts n hak hcid hn hts hst
  have hallk : ∀ p ∈ genPairs ak cid st ts n ++ [(("Signature").data, queryEscape sig)],
      goodKey p.1 := by
    intro p hp
    rw [List.mem_append] at hp
    rcases hp with hp | hp
    · exact (hgood p hp).1
    · simp only [List.mem_singleton] at hp
      subst hp
      exact show goodKey (("Signature").data) by decide
  have hallv : ∀ p ∈ genPairs ak cid st ts n ++ [(("Signature").data, queryEscape sig)],
      goodVal p.2 := by
    intro p hp
    rw [List.mem_append] at hp
    rcases hp with hp | hp
    · exact (hgood p hp).2
    · simp only [List.mem_singleton] at hp
      subst hp
      exact escape_goodVal sig hsig
  rw [parseQuery_joinPairs _ hallk hallv]
  refine Prod.ext ?_ rfl
  show List.foldl _ [] _ = _
  rw [foldAdd_eq_map (fun p => (queryUnescape p.2).getD []) _ [] ?hnd (by simp)]
  case hnd =>
    by_cases hst0 : st = []
    · simp only [genPairs, hst0, if_pos, List.map_append, List.map_cons, List.map_nil]
      decide
    · simp only [genPairs, if_neg hst0, List.map_append, List.map_cons, List.map_nil]
      decide
  have u1 : (queryUnescape (("1.0").data)).getD [] = ("1.0").data := by decide
  have u2 : (queryUnescape (("JSON").data)).getD [] = ("JSON").data := by decide
  have u3 : (queryUnescape (("HMAC-SHA1").data)).getD [] = ("HMAC-SHA1").data := by decide
  have u4 : (queryUnescape (("2015-04-01").data)).getD [] = ("2015-04-01").data := by decide
  have u5 : (queryUnescape (("GetCallerIdentity").data)).getD [] =
      ("GetCallerIdentity").data := by decide
  by_cases hst0 : st = []
  · simp [genPairs, genParsed, hst0, u1, u2, u3, u4, u5,
      benign_unescape hak, benign_unescape hcid, benign_unescape hn,
      queryUnescape_queryEscape ts hts, queryUnescape_queryEscape sig hsig]
  · simp [genPairs, genParsed, hst0, u1, u2, u3, u4, u5,
      benign_unescape hak, benign_unescape hcid, benign_unescape hn,
      queryUnescape_queryEscape ts hts, queryUnescape_queryEscape st hst,
      queryUnescape_queryEscape sig hsig]

/-- The lowered single-value parameter map `Verify` builds from the generated
query (derived form). -/
def genLower (ak cid st ts n sig : Str) : Values :=
  [(("signatureversion").data, [("1.0").data]),
   (("format").data, [("JSON").data]),
   (("timestamp").data, [ts]),
   (("accesskeyid").data, [ak]),
   (("signaturemethod").data, [("HMAC-SHA1").data]),
   (("version").data, [("2015-04-01").data]),
   (("signaturenonce").data, [n]),
   (("action").data, [("GetCallerIdentity").data]),
   (("clusterid").data, [cid])]
  ++ (if st = [] then [] else [(("securitytoken").data, [st])])
  ++ [(("signature").data, [sig])]

theorem gen_checkParams (ak cid st ts n sig : Str) :
    checkParams (genParsed ak cid st ts n sig) [] = .ok (genLower ak cid st ts n sig) := by
  have hwl : ∀ p ∈ genParsed ak cid st ts n sig,
      whitelisted (lowerStr p.1) = true ∧ p.2.length = 1 := by
    intro p hp
    unfold genParsed at hp
    rw [List.mem_append] at hp
    rcases hp with hp | hp
    · rw [List.mem_append] at hp
      rcases hp with hp | hp
      · simp only [List.mem_cons, List.not_mem_nil, or_false] at hp
        rcases hp with rfl | rfl | rfl | rfl | rfl | rfl | rfl | rfl | rfl
        · exact ⟨show whitelisted (lowerStr ("SignatureVersion").data) = true by decide, rfl⟩
        · exact ⟨show whitelisted (lowerStr ("Format").data) = true by decide, rfl⟩
        · exact ⟨show whitelisted (lowerStr ("Timestamp").data) = true by decide, rfl⟩
        · exact ⟨show whitelisted (lowerStr ("AccessKeyId").data) = true by decide, rfl⟩
        · exact ⟨show whitelisted (lowerStr ("SignatureMethod").data) = true by decide, rfl⟩
        · exact ⟨show whitelisted (lowerStr ("Version").data) = true by decide, rfl⟩
        · exact ⟨show whitelisted (lowerStr ("SignatureNonce").data) = true by decide, rfl⟩
        · exact ⟨show whitelisted (lowerStr ("Action").data) = true by decide, rfl⟩
        · exact ⟨show whitelisted (lowerStr ("ClusterId").data) = true by decide, rfl⟩
      · by_cases hst0 : st = []
        · rw [if_pos hst0] at hp
          simp at hp
        · rw [if_neg hst0] at hp
          simp only [List.mem_singleton] at hp
          subst hp
          exact ⟨show whitelisted (lowerStr ("SecurityToken").data) = true by decide, rfl⟩
    · simp only [List.mem_singleton] at hp
      subst hp
      exact ⟨show whitelisted (lowerStr ("Signature").data) = true by decide, rfl⟩
  rw [checkParams_ok_of _ [] hwl]
  congr 1
  rw [foldSet_eq_map _ [] ?hnd (by simp)]
  case hnd =>
    by_cases hst0 : st = []
    · simp only [genParsed, hst0, if_pos, List.map_append, List.map_cons, List.map_nil]
      decide
    · simp only [genParsed, if_neg hst0, List.map_append, List.map_cons, List.map_nil]
      decide
  have l1 : lowerStr ("SignatureVersion").data = ("signatureversion").data := by decide
  have l2 : lowerStr ("Format").data = ("format").data := by decide
  have l3 : lowerStr ("Timestamp").data = ("timestamp").data := by decide
  have l4 : lowerStr ("AccessKeyId").data = ("accesskeyid").data := by decide
  have l5 : lowerStr ("SignatureMethod").data = ("signaturemethod").data := by decide
  have l6 : lowerStr ("Version").data = ("version").data := by decide
  have l7 : lowerStr ("SignatureNonce").data = ("signaturenonce").data := by decide
  have l8 : lowerStr ("Action").data = ("action").data := by decide
  have l9 : lowerStr ("ClusterId").data = ("clusterid").data := by decide
  have l10 : lowerStr ("SecurityToken").data = ("securitytoken").data := by decide
  have l11 : lowerStr ("Signature").data = ("signature").data := by decide
  by_cases hst0 : st = []
  · simp [genParsed, genLower, hst0, l1, l2, l3, l4, l5, l6, l7, l8, l9, l11]
  · simp [genParsed, genLower, hst0, l1, l2, l3, l4, l5, l6, l7, l8, l9, l10, l11]

/-- `verifyParsedURL` on the standard parsed presigned URL, when the
parameter check succeeds: only the `Action`, `ClusterId` and `AccessKeyId`
lookups remain. -/
theorem verifyParsedURL_std_ok (cfg : VerifierCfg) (q : Str) (lower : Values)
    (h : checkParams (parseQueryGo q).1 [] = .ok lower) :
    verifyParsedURL cfg
      ⟨("https").data, ("sts.aliyuncs.com").data, ("/").data, q, false⟩ =
      (if valuesGet ("action").data lower ≠ ("GetCallerIdentity").data then
        .error (.formatError ("unexpected action parameter in pre-signed URL").data)
      else if valuesGet ("clusterid").data lower ≠ cfg.clusterID then
        .error (.formatError (("unexpected clusterid ").data ++
          valuesGet ("clusterid").data lower ++ (" in token").data))
      else .ok (valuesGet ("accesskeyid").data lower,
        ⟨("https").data, cfg.stsEndpoint, ("/").data, q, false⟩)) := by
  unfold verifyParsedURL
  rw [if_neg (by simp),
    if_neg (by simp [show hostMatch (("sts.aliyuncs.com").data) = true from by decide]),
    if_neg (by simp)]
  simp only [h]

/-- `verifyParsedURL` on the standard parsed presigned URL propagates a
parameter-check error. -/
theorem verifyParsedURL_std_err (cfg : VerifierCfg) (q : Str) (e : VerifyError)
    (h : checkParams (parseQueryGo q).1 [] = .error e) :
    verifyParsedURL cfg
      ⟨("https").data, ("sts.aliyuncs.com").data, ("/").data, q, false⟩ = .error e := by
  unfold verifyParsedURL
  rw [if_neg (by simp),
    if_neg (by simp [show hostMatch (("sts.aliyuncs.com").data) = true from by decide]),
    if_neg (by simp)]
  simp only [h]

theorem genLower_action (ak cid st ts n sig : Str) :
    valuesGet ("action").data (genLower ak cid st ts n sig) =
      ("GetCallerIdentity").data := by
  by_cases hst0 : st = [] <;> simp [genLower, hst0, valuesGet]

theorem genLower_clusterid (ak cid st ts n sig : Str) :
    valuesGet ("clusterid").data (genLower ak cid st ts n sig) = cid := by
  by_cases hst0 : st = [] <;> simp [genLower, hst0, valuesGet]

theorem genLower_accesskeyid (ak cid st ts n sig : Str) :
    valuesGet ("accesskeyid").data (genLower ak cid st ts n sig) = ak := by
  by_cases hst0 : st = [] <;> simp [genLower, hst0, valuesGet]

/-- The URL-validation chain accepts the generated presigned query and hands
back the generator's raw `AccessKeyId` with the host rewritten. -/
theorem verify_gen_query (ep ak cid st ts n sig : Str)
    (hak : benign ak) (hcid : benign cid) (hn : benign n)
    (hts : byteStr ts) (hst : byteStr st) (hsig : byteStr sig) :
    verifyParsedURL ⟨cid, ep⟩
      ⟨("https").data, ("sts.aliyuncs.com").data, ("/").data,
        joinPairsRaw (genPairs ak cid st ts n ++ [(("Signature").data, queryEscape sig)]),
        false⟩ =
      .ok (ak, ⟨("https").data, ep, ("/").data,
        joinPairsRaw (genPairs ak cid st ts n ++ [(("Signature").data, queryEscape sig)]),
        false⟩) := by
  have hpq1 : (parseQueryGo
      (joinPairsRaw (genPairs ak cid st ts n ++ [(("Signature").data, queryEscape sig)]))).1 =
      genParsed ak cid st ts n sig := by
    rw [gen_parseQuery ak cid st ts n sig hak hcid hn hts hst hsig]
  have hcp : checkParams (parseQueryGo
      (joinPairsRaw (genPairs ak cid st ts n ++ [(("Signature").data, queryEscape sig)]))).1 [] =
      .ok (genLower ak cid st ts n sig) := by
    rw [hpq1]
    exact gen_checkParams ak cid st ts n sig
  rw [verifyParsedURL_std_ok _ _ _ hcp,
    if_neg (fun hne => hne (genLower_action ak cid st ts n sig)),
    if_neg (fun hne => hne (genLower_clusterid ak cid st ts n sig)),
    genLower_accesskeyid]

theorem buildQueryStr_length (ak cid st ts n : Str) :
    (buildQueryStr ak cid st ts n).length ≤
      168 + 3 * ts.length + ak.length + n.length + cid.length + 3 * st.length := by
  have hts3 := queryEscape_length_le ts
  have hst3 := queryEscape_length_le st
  unfold buildQueryStr
  by_cases hst0 : st = []
  · rw [if_pos hst0]
    simp only [List.length_append, List.length_cons, List.length_nil]
    omega
  · rw [if_neg hst0]
    simp only [List.length_append, List.length_cons, List.length_nil]
    omega

/-- C1 (amended): for benign credential and parameter strings within the
length budget, `GetWithSTS` succeeds, the emitted v1 token stays within the
verifier 4096-byte limit, and `Verify` (up to the HTTP replay), configured
with the same cluster id, accepts the token and recovers exactly the
access key id the generator signed with.  The unconditional original claim
fails: `ClusterId` and `AccessKeyId` are inserted into the query string
unescaped and unbounded, so oversized or `&`-injecting values break the
round trip (see the counterexample). -/
theorem claim_c1_token_roundtrip
    (clusterID accessKey accessSecret securityToken timestamp nonce ep : Str) (now : Nat)
    (hak : benign accessKey) (hcid : benign clusterID) (hn : benign nonce)
    (hts : byteStr timestamp) (hst : byteStr securityToken)
    (hlen : accessKey.length + clusterID.length + nonce.length +
      3 * timestamp.length + 3 * securityToken.length ≤ 2700) :
    ∃ tk : TokenM, ∃ u2 : GoURL,
      getWithSTS clusterID accessKey accessSecret securityToken timestamp nonce now =
        .ok tk ∧
      goLen tk.token ≤ 4096 ∧
      verifyPre ⟨clusterID, ep⟩ tk.token = .ok (accessKey, u2) := by
  have hgood := genPairs_good accessKey clusterID securityToken timestamp nonce
    hak hcid hn hts hst
  have hpq : parseQueryGo (buildQueryStr accessKey clusterID securityToken timestamp nonce) =
      ((genPairs accessKey clusterID securityToken timestamp nonce).foldl
        (fun m p => valuesAdd p.1 ((queryUnescape p.2).getD []) m) [], false) := by
    rw [buildQueryStr_eq]
    exact parseQuery_joinPairs _ (fun p hp => (hgood p hp).1) (fun p hp => (hgood p hp).2)
  simp only [getWithSTS]
  rw [if_neg (by rw [hpq]; simp)]
  generalize hgen : b64EncodeBytes (hmacSha1 (bytesOf accessSecret ++ [38])
      (bytesOf (("GET&%2F&").data ++ queryEscape (valuesEncode
        (parseQueryGo
          (buildQueryStr accessKey clusterID securityToken timestamp nonce)).1)))) = sig
  have hsigb : byteStr sig := by
    rw [← hgen]
    intro c hc
    have := b64Encode_ascii _ c hc
    omega
  have hsigl : sig.length = 28 := by
    rw [← hgen, b64Encode_length, hmacSha1_length]
  have c11 : (("&Signature=").data).length = 11 := by decide
  have hR3000 : (buildQueryStr accessKey clusterID securityToken timestamp nonce ++
      ("&Signature=").data ++ queryEscape sig).length ≤ 3000 := by
    rw [List.length_append, List.length_append]
    have h1 := buildQueryStr_length accessKey clusterID securityToken timestamp nonce
    have h2 := queryEscape_length_le sig
    omega
  refine ⟨_, ⟨("https").data, ep, ("/").data,
    joinPairsRaw (genPairs accessKey clusterID securityToken timestamp nonce ++
      [(("Signature").data, queryEscape sig)]), false⟩, rfl, ?_, ?_⟩
  · exact tokenURL_goLen _ hR3000
  · rw [gen_rawq accessKey clusterID securityToken timestamp nonce sig]
    have hbytes : ∀ c ∈ joinPairsRaw (genPairs accessKey clusterID securityToken
        timestamp nonce ++ [(("Signature").data, queryEscape sig)]), c.toNat < 256 := by
      apply joinPairsRaw_bytes
      intro p hp
      rw [List.mem_append] at hp
      rcases hp with hp | hp
      · exact genPairs_bytes accessKey clusterID securityToken timestamp nonce
          (benign_byteStr hak) (benign_byteStr hcid) (benign_byteStr hn) p hp
      · simp only [List.mem_singleton] at hp
        subst hp
        exact ⟨show ∀ c ∈ ("Signature").data, c.toNat < 256 by decide,
          queryEscape_bytes sig⟩
    have hqsafe : ∀ c ∈ joinPairsRaw (genPairs accessKey clusterID securityToken
        timestamp nonce ++ [(("Signature").data, queryEscape sig)]),
        ¬isCtl c = true ∧ c ≠ '#' ∧ c ≠ '?' := by
      apply joinPairsRaw_pred (fun c => ¬isCtl c = true ∧ c ≠ '#' ∧ c ≠ '?')
        (by decide) (by decide)
      intro p hp
      rw [List.mem_append] at hp
      rcases hp with hp | hp
      · exact genPairs_qsafe accessKey clusterID securityToken timestamp nonce
          hak hcid hn p hp
      · simp only [List.mem_singleton] at hp
        subst hp
        exact ⟨show ∀ c ∈ ("Signature").data, ¬isCtl c = true ∧ c ≠ '#' ∧ c ≠ '?'
          by decide, queryEscape_qsafe sig⟩
    have hne : joinPairsRaw (genPairs accessKey clusterID securityToken timestamp nonce ++
        [(("Signature").data, queryEscape sig)]) ≠ [] := by
      rw [← gen_rawq accessKey clusterID securityToken timestamp nonce sig]
      simp
    have hlq : (joinPairsRaw (genPairs accessKey clusterID securityToken timestamp nonce ++
        [(("Signature").data, queryEscape sig)])).length ≤ 3000 := by
      rw [← gen_rawq accessKey clusterID securityToken timestamp nonce sig]
      exact hR3000
    rw [verifyPre_gen ⟨clusterID, ep⟩ _ hbytes hqsafe hne hlq]
    exact verify_gen_query ep accessKey clusterID securityToken timestamp nonce sig
      hak hcid hn hts hst hsigb

/-- C1 witness: the amended round trip evaluated at concrete benign inputs. -/
theorem claim_c1_token_roundtrip_witness :
    ∃ tk : TokenM, ∃ u2 : GoURL,
      getWithSTS (("c1").data) (("ak").data) (("sec").data) []
          (("t").data) (("n").data) 7 = .ok tk ∧
      goLen tk.token ≤ 4096 ∧
      verifyPre ⟨("c1").data, ("sts-vpc.cn-hangzhou.aliyuncs.com").data⟩ tk.token =
        .ok ((("ak").data), u2) :=
  claim_c1_token_roundtrip (("c1").data) (("ak").data) (("sec").data) []
    (("t").data) (("n").data) (("sts-vpc.cn-hangzhou.aliyuncs.com").data) 7
    (by decide) (by decide) (by decide) (by decide) (by decide) (by decide)

theorem checkParams_append_err (l1 l2 : Values) (acc : Values) (e : VerifyError)
    (h : checkParams l1 acc = .error e) : checkParams (l1 ++ l2) acc = .error e := by
  induction l1 generalizing acc with
  | nil => simp [checkParams] at h
  | cons p t ih =>
    obtain ⟨k, vs⟩ := p
    simp only [checkParams] at h
    simp only [List.cons_append, checkParams]
    by_cases hw : ¬whitelisted (lowerStr k) = true
    · rw [if_pos hw] at h
      rw [if_pos hw]
      exact h
    · rw [if_neg hw] at h
      rw [if_neg hw]
      by_cases hv : vs.length ≠ 1
      · rw [if_pos hv] at h
        rw [if_pos hv]
        exact h
      · rw [if_neg hv] at h
        rw [if_neg hv]
        exact ih _ h

/-- The key/value pairs the generated query decomposes into when the caller
passes the `&`-injecting access key id `ak&Attack=1` (derived form for the
counterexample). -/
def c1cxPairs : List (Str × Str) :=
  [(("SignatureVersion").data, ("1.0").data),
   (("Format").data, ("JSON").data),
   (("Timestamp").data, ("t").data),
   (("AccessKeyId").data, ("ak").data),
   (("Attack").data, ("1").data),
   (("SignatureMethod").data, ("HMAC-SHA1").data),
   (("Version").data, ("2015-04-01").data),
   (("SignatureNonce").data, ("n").data),
   (("Action").data, ("GetCallerIdentity").data),
   (("ClusterId").data, ("c1").data)]

/-- The parsed `url.Values` for `c1cxPairs`. -/
def c1cxParsed : Values :=
  [(("SignatureVersion").data, [("1.0").data]),
   (("Format").data, [("JSON").data]),
   (("Timestamp").data, [("t").data]),
   (("AccessKeyId").data, [("ak").data]),
   (("Attack").data, [("1").data]),
   (("SignatureMethod").data, [("HMAC-SHA1").data]),
   (("Version").data, [("2015-04-01").data]),
   (("SignatureNonce").data, [("n").data]),
   (("Action").data, [("GetCallerIdentity").data]),
   (("ClusterId").data, [("c1").data])]

/-- With the injected access key id, `Verify` rejects the generated token:
the smuggled `Attack` parameter is not on the allow-list. -/
theorem c1cx_verify (sig : Str) (hsigb : byteStr sig) (hsigl : sig.length ≤ 28) :
    verifyPre ⟨("c1").data, ("sts.aliyuncs.com").data⟩
      (tokenV1Head ++ b64EncodeBytes (bytesOf (stsHostStr ++ '?' ::
        (buildQueryStr (("ak&Attack=1").data) (("c1").data) [] (("t").data) (("n").data) ++
          ("&Signature=").data ++ queryEscape sig)))) =
      .error (.formatError (("non-whitelisted query parameter ").data ++
        goQuote (("Attack").data))) := by
  have hsplit : buildQueryStr (("ak&Attack=1").data) (("c1").data) [] (("t").data)
      (("n").data) ++ ("&Signature=").data ++ queryEscape sig =
      joinPairsRaw (c1cxPairs ++ [(("Signature").data, queryEscape sig)]) := by
    rw [show buildQueryStr (("ak&Attack=1").data) (("c1").data) [] (("t").data)
        (("n").data) = joinPairsRaw c1cxPairs from by decide,
      joinPairsRaw_append_single _ _ _ (by decide)]
    have e : ("&Signature=").data = '&' :: (("Signature").data ++ ['=']) := by decide
    rw [List.append_assoc, e]
    simp [List.append_assoc]
  rw [hsplit]
  have hbytes : ∀ c ∈ joinPairsRaw (c1cxPairs ++ [(("Signature").data, queryEscape sig)]),
      c.toNat < 256 := by
    apply joinPairsRaw_bytes
    intro p hp
    rw [List.mem_append] at hp
    rcases hp with hp | hp
    · exact (show ∀ p ∈ c1cxPairs, (∀ c ∈ p.1, c.toNat < 256) ∧ (∀ c ∈ p.2, c.toNat < 256)
        by decide) p hp
    · simp only [List.mem_singleton] at hp
      subst hp
      exact ⟨show ∀ c ∈ ("Signature").data, c.toNat < 256 by decide, queryEscape_bytes sig⟩
  have hqsafe : ∀ c ∈ joinPairsRaw (c1cxPairs ++ [(("Signature").data, queryEscape sig)]),
      ¬isCtl c = true ∧ c ≠ '#' ∧ c ≠ '?' := by
    apply joinPairsRaw_pred (fun c => ¬isCtl c = true ∧ c ≠ '#' ∧ c ≠ '?')
      (by decide) (by decide)
    intro p hp
    rw [List.mem_append] at hp
    rcases hp with hp | hp
    · exact (show ∀ p ∈ c1cxPairs,
          (∀ c ∈ p.1, ¬isCtl c = true ∧ c ≠ '#' ∧ c ≠ '?') ∧
          (∀ c ∈ p.2, ¬isCtl c = true ∧ c ≠ '#' ∧ c ≠ '?') by decide) p hp
    · simp only [List.mem_singleton] at hp
      subst hp
      exact ⟨show ∀ c ∈ ("Signature").data, ¬isCtl c = true ∧ c ≠ '#' ∧ c ≠ '?' by decide,
        queryEscape_qsafe sig⟩
  have hne : joinPairsRaw (c1cxPairs ++ [(("Signature").data, queryEscape sig)]) ≠ [] := by
    rw [← hsplit]
    simp
  have hlq : (joinPairsRaw (c1cxPairs ++ [(("Signature").data, queryEscape sig)])).length ≤
      3000 := by
    rw [← hsplit, List.length_append, List.length_append]
    have h1 : (buildQueryStr (("ak&Attack=1").data) (("c1").data) [] (("t").data)
        (("n").data)).length = 168 := by decide
    have h2 := queryEscape_length_le sig
    have h3 : (("&Signature=").data).length = 11 := by decide
    omega
  rw [verifyPre_gen _ _ hbytes hqsafe hne hlq]
  apply verifyParsedURL_std_err
  have hkC : ∀ p ∈ c1cxPairs ++ [(("Signature").data, queryEscape sig)], goodKey p.1 := by
    intro p hp
    rw [List.mem_append] at hp
    rcases hp with hp | hp
    · exact (show ∀ p ∈ c1cxPairs, goodKey p.1 by decide) p hp
    · simp only [List.mem_singleton] at hp
      subst hp
      exact show goodKey (("Signature").data) by decide
  have hvC : ∀ p ∈ c1cxPairs ++ [(("Signature").data, queryEscape sig)], goodVal p.2 := by
    intro p hp
    rw [List.mem_append] at hp
    rcases hp with hp | hp
    · exact (show ∀ p ∈ c1cxPairs, goodVal p.2 by decide) p hp
    · simp only [List.mem_singleton] at hp
      subst hp
      exact escape_goodVal sig hsigb
  have hpq1 : (parseQueryGo
      (joinPairsRaw (c1cxPairs ++ [(("Signature").data, queryEscape sig)]))).1 =
      (c1cxPairs ++ [(("Signature").data, queryEscape sig)]).foldl
        (fun m p => valuesAdd p.1 ((queryUnescape p.2).getD []) m) [] := by
    rw [parseQuery_joinPairs _ hkC hvC]
  have hfold : (c1cxPairs ++ [(("Signature").data, queryEscape sig)]).foldl
      (fun m p => valuesAdd p.1 ((queryUnescape p.2).getD []) m) [] =
      c1cxParsed ++ [(("Signature").data, [sig])] := by
    rw [List.foldl_append,
      show c1cxPairs.foldl (fun m p => valuesAdd p.1 ((queryUnescape p.2).getD []) m) [] =
        c1cxParsed from by decide]
    simp only [List.foldl_cons, List.foldl_nil, queryUnescape_queryEscape sig hsigb,
      Option.getD_some]
    exact valuesAdd_not_mem _ _ _ (by decide)
  rw [hpq1, hfold]
  exact checkParams_append_err c1cxParsed _ [] _ (by decide)

theorem c1cx_noRecover (sig : Str) (hsigb : byteStr sig) (hsigl : sig.length ≤ 28) :
    ∀ u2 : GoURL,
      verifyPre ⟨("c1").data, ("sts.aliyuncs.com").data⟩
        (tokenV1Head ++ b64EncodeBytes (bytesOf (stsHostStr ++ '?' ::
          (buildQueryStr (("ak&Attack=1").data) (("c1").data) [] (("t").data)
            (("n").data) ++ ("&Signature=").data ++ queryEscape sig)))) ≠
        .ok ((("ak&Attack=1").data), u2) := by
  intro u2 hcon
  rw [c1cx_verify sig hsigb hsigl] at hcon
  exact absurd hcon (by simp)

/-- C1 counterexample: the unconditional claim is false.  With the
`&`-injecting access key id `ak&Attack=1`, `GetWithSTS` succeeds, but the
verifier rejects the resulting token (the smuggled `Attack` parameter is not
allow-listed), so no run of `Verify` recovers the generator's access key
id. -/
theorem claim_c1_counterexample :
    ∃ tk : TokenM,
      getWithSTS (("c1").data) (("ak&Attack=1").data) (("sec").data) []
          (("t").data) (("n").data) 0 = .ok tk ∧
      ∀ u2 : GoURL,
        verifyPre ⟨("c1").data, ("sts.aliyuncs.com").data⟩ tk.token ≠
          .ok ((("ak&Attack=1").data), u2) := by
  have hsigb : byteStr (b64EncodeBytes (hmacSha1 (bytesOf (("sec").data) ++ [38])
      (bytesOf (("GET&%2F&").data ++ queryEscape (valuesEncode
        (parseQueryGo (buildQueryStr (("ak&Attack=1").data) (("c1").data) []
          (("t").data) (("n").data))).1))))) := by
    intro c hc
    have := b64Encode_ascii _ c hc
    omega
  have hsigl : (b64EncodeBytes (hmacSha1 (bytesOf (("sec").data) ++ [38])
      (bytesOf (("GET&%2F&").data ++ queryEscape (valuesEncode
        (parseQueryGo (buildQueryStr (("ak&Attack=1").data) (("c1").data) []
          (("t").data) (("n").data))).1))))).length ≤ 28 := by
    rw [b64Encode_length, hmacSha1_length]
  simp only [getWithSTS]
  rw [if_neg (by decide)]
  exact ⟨_, rfl, c1cx_noRecover _ hsigb hsigl⟩

end AckRam
